import Mathlib

/-!
A shallow embedding of the message-routing proxy in src/nofat/proxyserver.cpp.

Bytes are modelled as natural numbers below 256 and buffers as lists of
bytes.  Machine integers are modelled as Nat or Int with explicit wrapping
where the C code can overflow: the 4-byte frame size is read with ntohl
(an unsigned 32-bit value) and then stored into a signed int
(proxyserver.cpp line 758), which is modelled by toSigned32.  The frame
parser of the readiness loop (lines 748-844) is modelled by parseLoop, a
fuel-indexed function: the C loop advances the buffer head by
in_msg_size + 4, which for a negative in_msg_size does not make progress
(undefined behaviour in the source); exhausting the fuel yields the
POut.stuck result in that case.
-/

namespace ProxyServer

/-- Big-endian interpretation of a list of bytes. -/
def beNat (bs : List Nat) : Nat := bs.foldl (fun a b => a * 256 + b) 0

/-- The 4-byte big-endian encoding (htonl of an unsigned 32-bit value). -/
def be32 (n : Nat) : List Nat :=
  [n / 2 ^ 24 % 256, n / 2 ^ 16 % 256, n / 2 ^ 8 % 256, n % 256]

/-- The 2-byte big-endian encoding (htons of an unsigned 16-bit value). -/
def be16 (n : Nat) : List Nat := [n / 2 ^ 8 % 256, n % 256]

/-- Storing the unsigned result of ntohl into the C int in_msg_size
(proxyserver.cpp line 758): values at or above 2^31 wrap to negatives. -/
def toSigned32 (u : Nat) : Int := if u < 2 ^ 31 then (u : Int) else (u : Int) - 2 ^ 32

/-- Peer-connection buffer capacity, 4096 - sizeof(fd_ctx)
(FDCTX_CLIENT_BUFSIZE, proxyserver.cpp line 90) on the LP64 reference
platform where sizeof(fd_ctx) = 168. -/
def FDCTX_CLIENT_BUFSIZE : Nat := 4096 - 168

/-- What one pass of the parse loop hands on per decoded frame: a
UID-announce (lines 785-792) or an addressed message given to the router
(lines 799-833). -/
inductive Ev where
  | announce (u : Nat)
  | msg (frame : List Nat)
  deriving DecidableEq

/-- Result of running the parse loop over a buffer: normal termination
with the emitted events, the final uid and the surviving bytes; a fatal
oversize frame (lines 760-779), with the events emitted before it; or
fuel exhaustion, modelling the undefined behaviour of a negative buffer
advance. -/
inductive POut where
  | ok (evs : List Ev) (uid : Int) (leftover : List Nat)
  | fatal (evs : List Ev)
  | stuck
  deriving DecidableEq

/-- The frame-extraction loop of the readiness handler
(proxyserver.cpp lines 752-834), for a connection whose faf_uid is uid.
Conditions mirror the source: fewer than 4 bytes stops; a decoded
in_msg_size greater than the capacity is fatal (line 760); an incomplete
frame stops (line 781); a connection with unset uid treats the frame as a
UID-announce, reading the 16-bit uid at buffer offset 4 (lines 785-792);
otherwise the frame goes to the router.  The buffer advance by
in_msg_size + 4 is clamped at zero via Int.toNat, so the C loop that would
walk backwards instead runs out of fuel. -/
def parseLoop (cap : Nat) : Nat → Int → List Nat → POut
  | 0, _, _ => .stuck
  | fuel + 1, uid, buf =>
    if buf.length < 4 then .ok [] uid buf
    else
      let in_msg_size : Int := toSigned32 (beNat (buf.take 4))
      if (cap : Int) < in_msg_size then .fatal []
      else if (buf.length : Int) < in_msg_size + 4 then .ok [] uid buf
      else
        let adv := (in_msg_size + 4).toNat
        if uid = -1 then
          let u := beNat ((buf.drop 4).take 2)
          match parseLoop cap fuel (u : Int) (buf.drop adv) with
          | .ok evs uid' rest => .ok (.announce u :: evs) uid' rest
          | .fatal evs => .fatal (.announce u :: evs)
          | .stuck => .stuck
        else
          match parseLoop cap fuel uid (buf.drop adv) with
          | .ok evs uid' rest => .ok (.msg (buf.take adv) :: evs) uid' rest
          | .fatal evs => .fatal (.msg (buf.take adv) :: evs)
          | .stuck => .stuck

/-! ## Connection records and the connection store

An fd_ctx (proxyserver.cpp lines 70-88) is modelled by Conn; live records
are kept in an association list from a connection identifier (standing
for the fd_ctx pointer) to its record.  Deallocation removes the entry. -/

/-- The fields of fd_ctx that the claims concern: faf_uid (-1 when unset),
the partial-frame buffer, the peer cache (proxy_peers, a list of
connection identifiers, most recently inserted first) and the reference
count. -/
structure Conn where
  faf_uid : Int
  buf : List Nat
  cache : List Nat
  refcount : Int
  deriving DecidableEq

/-- The set of live fd_ctx records, keyed by connection identifier. -/
abbrev Store := List (Nat × Conn)

/-- Look up a live connection record (dereferencing an fd_ctx pointer). -/
def getC : Store → Nat → Option Conn
  | [], _ => none
  | (j, c) :: rest, id => if j = id then some c else getC rest id

/-- Replace the record of a live connection (a field assignment through
the pointer); absent identifiers stay absent. -/
def setC : Store → Nat → Conn → Store
  | [], _, _ => []
  | (j, c) :: rest, id, cNew =>
    if j = id then (j, cNew) :: setC rest id cNew else (j, c) :: setC rest id cNew

/-- Remove a record from the store (deallocate_fdctx, lines 99-102). -/
def removeIdS : Store → Nat → Store
  | [], _ => []
  | (j, c) :: rest, id => if j = id then removeIdS rest id else (j, c) :: removeIdS rest id

/-- The faf_uid reachable through an identifier; a dangling identifier
reads as unset. -/
def uidOfS (s : Store) (id : Nat) : Int := ((getC s id).map Conn.faf_uid).getD (-1)

/-- The buffered bytes reachable through an identifier. -/
def bufOfS (s : Store) (id : Nat) : List Nat := ((getC s id).map Conn.buf).getD []

/-- Fuel bound for reference-release cascades: a store of n records with
caches of at most MAX_PEERS = 16 entries can enqueue at most 16 n further
releases. -/
def relFuel (s : Store) : Nat := 17 * s.length + 17

/-- Decrement the refcount of every identifier in the worklist; an entry
whose count reaches zero is deallocated, which releases its own cache
references in turn (the fd_ctx destructor, line 212, runs
proxy_peers::unref_all, lines 156-163).  This one primitive is the
"--refcount; if zero, destroy" step used by proxy_peers::add,
proxy_peers::remove and unref_all. -/
def releaseRefs : Nat → Store → List Nat → Store
  | _, s, [] => s
  | 0, s, _ :: _ => s
  | fuel + 1, s, id :: work =>
    match getC s id with
    | none => releaseRefs fuel s work
    | some c =>
      if c.refcount ≤ 1 then releaseRefs fuel (removeIdS s id) (c.cache ++ work)
      else releaseRefs fuel (setC s id { c with refcount := c.refcount - 1 }) work

/-- Incrementing the refcount through a pointer (proxy_peers::add,
line 122). -/
def incRefS (s : Store) (p : Nat) : Store :=
  match getC s p with
  | none => s
  | some c => setC s p { c with refcount := c.refcount + 1 }

/-! ## The per-connection peer cache (proxy_peers, lines 57-178) -/

/-- proxy_peers::find (lines 104-109): a linear scan matching on
faf_uid equality only. -/
def proxy_peers_find (uidOf : Nat → Int) (cache : List Nat) (uid : Int) : Option Nat :=
  cache.find? (fun q => uidOf q == uid)

/-- proxy_peers::add (lines 111-132) on the cache of connection src:
below MAX_PEERS = 16 entries the rotation loop shifts every entry back by
one slot and puts p in slot 0, and p's refcount is incremented; at 16
entries the oldest (tail) entry is released first (decrement, destroy on
zero) and the recursive add — now with 15 entries — inserts at the
front. -/
def cacheAddS (s : Store) (src p : Nat) : Store :=
  match getC s src with
  | none => s
  | some c =>
    if c.cache.length < 16 then
      incRefS (setC s src { c with cache := p :: c.cache }) p
    else
      let t := c.cache.getLastD 0
      let s1 := releaseRefs (relFuel s) s [t]
      match getC s1 src with
      | none => s1
      | some c1 => incRefS (setC s1 src { c1 with cache := p :: c1.cache.dropLast }) p

/-- proxy_peers::remove (lines 134-148) executed on the cache of holder:
erase the first occurrence of target, compact, then release one reference
of target. -/
def cacheRemoveIn (s : Store) (holder target : Nat) : Store :=
  match getC s holder with
  | none => s
  | some q =>
    if target ∈ q.cache then
      releaseRefs (relFuel s) (setC s holder { q with cache := q.cache.erase target }) [target]
    else s

/-- proxy_peers::remove_from_all_peers (lines 150-154): the closing
connection asks every entry of its own cache to remove it from that
entry's cache. -/
def removeFromAllPeers (s : Store) (id : Nat) (holders : List Nat) : Store :=
  holders.foldl (fun acc q => cacheRemoveIn acc q id) s

/-- proxy_peers::cleanup_dangling (lines 165-178), the lazy sweep of
tombstoned entries, over a cache paired with the refcounts of its
targets.  It returns the compacted cache, the refcounts, and the entries
it destroyed.  Note the source keeps an entry whose uid is unset when its
refcount stays positive, although it already dropped the reference.
This function is declared and defined in the source but never called. -/
def proxy_peers_cleanup_dangling (uidOf : Nat → Int) :
    List Nat → (Nat → Int) → List Nat × (Nat → Int) × List Nat
  | [], rc => ([], rc, [])
  | q :: rest, rc =>
    if uidOf q = -1 then
      let rc1 := fun x => if x = q then rc x - 1 else rc x
      if rc1 q = 0 then
        let r := proxy_peers_cleanup_dangling uidOf rest rc1
        (r.1, r.2.1, q :: r.2.2)
      else
        let r := proxy_peers_cleanup_dangling uidOf rest rc1
        (q :: r.1, r.2.1, r.2.2)
    else
      let r := proxy_peers_cleanup_dangling uidOf rest rc
      (q :: r.1, r.2.1, r.2.2)

/-! ## The UID index

peer_sockets (line 202) is a std::set of fd_ctx pointers ordered by
fd_ctx_less_by_uid (lines 180-184), so two connections with equal faf_uid
are equivalent elements: insert of a duplicate key is a no-op, find and
erase locate the unique element with the given key. -/

/-- std::set::insert on peer_sockets: a no-op when an element with the
same faf_uid is already present. -/
def set_insert (uidOf : Nat → Int) (idx : List Nat) (p : Nat) : List Nat :=
  if idx.any (fun q => uidOf q == uidOf p) then idx else p :: idx

/-- std::set::find on peer_sockets via the fd_ctx_finder with the sought
faf_uid (lines 805-806). -/
def set_find (uidOf : Nat → Int) (idx : List Nat) (uid : Int) : Option Nat :=
  idx.find? (fun q => uidOf q == uid)

/-- std::set::erase on peer_sockets: removes the element whose faf_uid
equals that of the argument, if any. -/
def set_erase (uidOf : Nat → Int) (idx : List Nat) (p : Nat) : List Nat :=
  match idx.find? (fun q => uidOf q == uidOf p) with
  | some q => idx.erase q
  | none => idx

/-! ## The router and the in-place header rewrite (lines 799-833) -/

/-- Splicing a write of vals into a buffer at byte offset i. -/
def writeAt (l : List Nat) (i : Nat) (vals : List Nat) : List Nat :=
  l.take i ++ vals ++ l.drop (i + vals.length)

/-- htonl applied to a C int: conversion to uint32 wraps mod 2^32. -/
def htonlInt (x : Int) : List Nat := be32 ((x % 2 ^ 32).toNat)

/-- The destination uid ntohs(h->destuid) decoded from bytes 6-7 of the
frame (line 800). -/
def destUidOf (frame : List Nat) : Nat := beNat ((frame.drop 6).take 2)

/-- The in-place header rewrite (lines 816-820): hout points 2 bytes into
the frame; hout->port (frame bytes 6-7) receives htons(ntohs(h->port))
where h->port is frame bytes 4-5, and hout->size (frame bytes 2-5)
receives htonl(in_msg_size - 2). -/
def rewriteFrame (frame : List Nat) : List Nat :=
  let in_msg_size : Int := toSigned32 (beNat (frame.take 4))
  let in_port : Nat := beNat ((frame.drop 4).take 2)
  let withPort := writeAt frame 6 (be16 in_port)
  writeAt withPort 2 (htonlInt (in_msg_size - 2))

/-- The bytes handed to write(peer->fd, hout, out_size + 4) (line 823):
out_size + 4 bytes starting 2 bytes into the rewritten frame. -/
def emitBytes (frame : List Nat) : List Nat :=
  let in_msg_size : Int := toSigned32 (beNat (frame.take 4))
  ((rewriteFrame frame).drop 2).take ((in_msg_size - 2 + 4).toNat)

/-- Side effects of one loop branch that the claims observe. -/
inductive Act where
  | forward (dest : Nat) (bytes : List Nat)
  | ctrlWrite (bytes : List Nat)
  | shipFd (id : Nat)
  | closeFd (id : Nat)
  | closeServers
  | registerCtrlListener
  | registerTcpListener
  | logStatus
  | stuckUB
  deriving DecidableEq

/-- The router for one addressed message from connection src
(lines 799-833): look the destination uid up in the source's peer cache,
fall back to peer_sockets (inserting the hit into the cache), silently
drop on a miss; on a hit emit the single write of the rewritten frame. -/
def routeFrame (s : Store) (idx : List Nat) (src : Nat) (frame : List Nat) :
    Store × List Act :=
  let u : Int := destUidOf frame
  match getC s src with
  | none => (s, [])
  | some c =>
    match proxy_peers_find (uidOfS s) c.cache u with
    | some p => (s, [.forward p (emitBytes frame)])
    | none =>
      match set_find (uidOfS s) idx u with
      | some p => (cacheAddS s src p, [.forward p (emitBytes frame)])
      | none => (s, [])

/-- The UID-announce handler (lines 785-792): set faf_uid from the frame,
then peer_sockets.insert(ctxp) — which compares by the just-assigned
uid. -/
def announceStep (s : Store) (idx : List Nat) (src : Nat) (u : Nat) : Store × List Nat :=
  match getC s src with
  | none => (s, idx)
  | some c =>
    let s1 := setC s src { c with faf_uid := (u : Int) }
    (s1, set_insert (uidOfS s1) idx src)

/-- Interpret one parse event against the store and the UID index: a
UID-announce runs announceStep; an addressed message is routed unless the
instance is decaying (the guard at line 799). -/
def applyEv (decay : Bool) (src : Nat) :
    Store × List Nat → Ev → (Store × List Nat) × List Act
  | (s, idx), .announce u => (announceStep s idx src u, [])
  | (s, idx), .msg frame =>
    if decay then ((s, idx), [])
    else
      let r := routeFrame s idx src frame
      ((r.1, idx), r.2)

/-- Interpret the events of one read in order. -/
def applyEvs (decay : Bool) (src : Nat) :
    Store × List Nat → List Ev → (Store × List Nat) × List Act
  | si, [] => (si, [])
  | si, ev :: rest =>
    let r1 := applyEv decay src si ev
    let r2 := applyEvs decay src r1.1 rest
    (r2.1, r1.2 ++ r2.2)

/-- The close-and-destroy path shared by end-of-stream (lines 734-746)
and the fatal oversize frame (lines 760-779): erase the uid from
peer_sockets when set, remove this connection from the caches of every
connection it itself cached, drop the loop's reference; if the count
reaches zero the record is destroyed (its destructor releasing its cache
references), otherwise it stays behind tombstoned with faf_uid = -1. -/
def closeConn (s : Store) (idx : List Nat) (id : Nat) : Store × List Nat :=
  match getC s id with
  | none => (s, idx)
  | some c =>
    let idx1 := if c.faf_uid = -1 then idx else set_erase (uidOfS s) idx id
    let s1 := removeFromAllPeers s id c.cache
    match getC s1 id with
    | none => (s1, idx1)
    | some c1 =>
      if c1.refcount ≤ 1 then (releaseRefs (relFuel s1) (removeIdS s1 id) c1.cache, idx1)
      else (setC s1 id { c1 with refcount := c1.refcount - 1, faf_uid := -1 }, idx1)

/-! ## The event loop (main, lines 522-856) -/

/-- The loop state that the claims observe: the live connection records,
peer_sockets, whether the TCP listeners are still registered, decay_mode
and ctrl_socket_mode_listen (lines 388-389). -/
structure Sys where
  conns : Store
  peer_sockets : List Nat
  server_open : Bool
  decay_mode : Bool
  ctrl_mode_listen : Bool
  deriving DecidableEq

/-- ASCII bytes of the control command compared by
strncmp(buf, "unlisten", 8) at line 587. -/
def unlistenBytes : List Nat := [117, 110, 108, 105, 115, 116, 101, 110]

/-- ASCII bytes of the "unlistening" reply written at line 596. -/
def unlisteningBytes : List Nat :=
  [117, 110, 108, 105, 115, 116, 101, 110, 105, 110, 103]

/-- One readiness event dispatched by the loop: the SIGUSR1 flag check
(lines 523-534), control-listener accept (549-572), a control message in
listen mode (573-611), end-of-stream on the control connection (583-585),
a desc or exit control message in client mode (612-692), a TCP-listener
accept (693-717), and data, end-of-stream or a transient error on a peer
socket (718-854). -/
inductive Event where
  | sigusr1
  | ctrlAccept
  | ctrlMsg (cmd : List Nat)
  | ctrlEof
  | ctrlDesc (news : List (Nat × Int))
  | ctrlExit
  | tcpAccept (id : Nat)
  | peerData (id : Nat) (data : List Nat)
  | peerEof (id : Nat)
  | peerErr
  deriving DecidableEq

/-- Promote one fd received in a desc control message (lines 655-676):
it becomes a fresh peer connection whose faf_uid comes from the parallel
integer array; one announced with uid -1 is not entered into
peer_sockets. -/
def inheritOne (acc : Sys) (p : Nat × Int) : Sys :=
  match getC acc.conns p.1 with
  | some _ => acc
  | none =>
    let c : Conn := { faf_uid := p.2, buf := [], cache := [], refcount := 1 }
    let acc1 := { acc with conns := (p.1, c) :: acc.conns }
    if p.2 = -1 then acc1
    else { acc1 with peer_sockets := set_insert (uidOfS acc1.conns) acc1.peer_sockets p.1 }

/-- Promote all fds of a desc control message (lines 651-677). -/
def inheritConns (st : Sys) (news : List (Nat × Int)) : Sys :=
  news.foldl inheritOne st

/-- One iteration branch of the event loop.  The peerData branch mirrors
lines 718-854: in decay mode an idle connection is shipped before any
read (719-726); otherwise the read appends to the buffer, the parse loop
runs, its events are interpreted (announces always, routing only outside
decay), a fatal oversize frame closes the connection, the surviving bytes
are compacted into the buffer (835-844: the leftover list is the
front-compacted buffer), and in decay a connection whose buffer drained
is shipped onward and erased from peer_sockets (845-852).  The unlisten
branch models the bulk-send do-while of lines 599-606 by its net effect:
every idle identified connection is shipped and erased, in batches of up
to 256 fds in the source. -/
def step (cap : Nat) (st : Sys) : Event → Sys × List Act
  | .sigusr1 => ({ st with server_open := false }, [.closeServers])
  | .ctrlAccept => (st, [])
  | .ctrlEof => (st, [.registerCtrlListener])
  | .ctrlMsg cmd =>
    if st.ctrl_mode_listen then
      if cmd.take 8 = unlistenBytes then
        let idle := st.peer_sockets.filter (fun q => (bufOfS st.conns q).isEmpty)
        let keep := st.peer_sockets.filter (fun q => !(bufOfS st.conns q).isEmpty)
        ({ st with server_open := false, decay_mode := true, peer_sockets := keep },
          .closeServers :: .ctrlWrite unlisteningBytes ::
            (idle.map .shipFd ++ idle.map .closeFd))
      else (st, [])
    else (st, [])
  | .ctrlDesc news =>
    if st.ctrl_mode_listen then (st, []) else (inheritConns st news, [])
  | .ctrlExit =>
    if st.ctrl_mode_listen then (st, [])
    else ({ st with ctrl_mode_listen := true }, [.registerCtrlListener])
  | .tcpAccept id =>
    if st.server_open && (getC st.conns id).isNone then
      ({ st with
          conns := (id, { faf_uid := -1, buf := [], cache := [], refcount := 1 }) :: st.conns },
        [])
    else (st, [])
  | .peerErr => (st, [])
  | .peerEof id =>
    match getC st.conns id with
    | none => (st, [])
    | some _ =>
      let r := closeConn st.conns st.peer_sockets id
      ({ st with conns := r.1, peer_sockets := r.2 }, [.closeFd id])
  | .peerData id data =>
    match getC st.conns id with
    | none => (st, [])
    | some c =>
      if st.decay_mode && c.buf.isEmpty then
        let idx1 :=
          if c.faf_uid = -1 then st.peer_sockets
          else set_erase (uidOfS st.conns) st.peer_sockets id
        ({ st with peer_sockets := idx1 }, [.shipFd id, .closeFd id])
      else
        let buf1 := c.buf ++ data
        match parseLoop cap (buf1.length + 1) c.faf_uid buf1 with
        | .stuck => (st, [.stuckUB])
        | .fatal evs =>
          let r := applyEvs st.decay_mode id (st.conns, st.peer_sockets) evs
          let r2 := closeConn r.1.1 r.1.2 id
          ({ st with conns := r2.1, peer_sockets := r2.2 }, r.2 ++ [.closeFd id])
        | .ok evs _ leftover =>
          let r := applyEvs st.decay_mode id (st.conns, st.peer_sockets) evs
          let s2 :=
            match getC r.1.1 id with
            | none => r.1.1
            | some c2 => setC r.1.1 id { c2 with buf := leftover }
          if st.decay_mode && leftover.isEmpty then
            let idx2 :=
              match getC s2 id with
              | some c3 =>
                if c3.faf_uid = -1 then r.1.2 else set_erase (uidOfS s2) r.1.2 id
              | none => r.1.2
            ({ st with conns := s2, peer_sockets := idx2 },
              r.2 ++ [.shipFd id, .closeFd id])
          else ({ st with conns := s2, peer_sockets := r.1.2 }, r.2)

/-- Run the loop over a sequence of readiness events, collecting the
emitted side effects. -/
def run (cap : Nat) : Sys → List Event → Sys × List Act
  | st, [] => (st, [])
  | st, ev :: evs =>
    let r1 := step cap st ev
    let r2 := run cap r1.1 evs
    (r2.1, r1.2 ++ r2.2)

/-! ## Feeding a byte stream chunk by chunk (for the frame boundary law)

Each read appends a chunk at offset buf_len and runs the parse loop; the
surviving bytes become the new buffer contents (the compaction of lines
835-844).  A fatal or stuck outcome aborts the run. -/

/-- One readiness event of the parser on a connection with uid p.1 and
buffered bytes p.2, receiving chunk c. -/
def feedChunk (cap : Nat) (p : Int × List Nat) (c : List Nat) :
    Option (List Ev × Int × List Nat) :=
  match parseLoop cap ((p.2 ++ c).length + 1) p.1 (p.2 ++ c) with
  | .ok evs uid rest => some (evs, uid, rest)
  | .fatal _ => none
  | .stuck => none

/-- Feed a sequence of read chunks, concatenating the emitted events. -/
def feedChunks (cap : Nat) : Int → List Nat → List (List Nat) →
    Option (List Ev × Int × List Nat)
  | uid, buf, [] => some ([], uid, buf)
  | uid, buf, c :: cs =>
    match feedChunk cap (uid, buf) c with
    | none => none
    | some r =>
      match feedChunks cap r.2.1 r.2.2 cs with
      | none => none
      | some r2 => some (r.1 ++ r2.1, r2.2.1, r2.2.2)

/-! ## The specification-side view of a frame stream -/

/-- A frame as (size, body): the wire encoding is the 4-byte big-endian
size followed by the size-many body bytes. -/
def encodeF (f : Nat × List Nat) : List Nat := be32 f.1 ++ f.2

/-- The uid state after processing one frame: a connection with unset
uid takes the 16-bit value at the front of the body. -/
def nextUid (uid : Int) (f : Nat × List Nat) : Int :=
  if uid = -1 then (beNat (f.2.take 2) : Int) else uid

/-- The uid state after a list of frames. -/
def uidAfter (uid : Int) (fs : List (Nat × List Nat)) : Int := fs.foldl nextUid uid

/-- Well-formed frame stream for a connection entering with the given
uid: each size matches its body and fits the buffer, and an announce
frame (processed with uid unset) carries at least the 2 uid bytes. -/
def wfFrames (cap : Nat) : Int → List (Nat × List Nat) → Prop
  | _, [] => True
  | uid, f :: rest =>
    f.2.length = f.1 ∧ f.1 + 4 ≤ cap ∧ (uid = -1 → 2 ≤ f.1) ∧
      wfFrames cap (nextUid uid f) rest

/-- The events a well-formed frame stream should produce: parsing the
full concatenation at once. -/
def specEvents : Int → List (Nat × List Nat) → List Ev
  | _, [] => []
  | uid, f :: rest =>
    (if uid = -1 then Ev.announce (beNat (f.2.take 2)) else Ev.msg (encodeF f)) ::
      specEvents (nextUid uid f) rest

/-- Greedy consumption of the frames wholly contained in a byte
quantity: the specification-side counterpart of one parse-loop pass. -/
def consume : Int → List (Nat × List Nat) → List Nat → List Ev × Int × List Nat
  | uid, [], buf => ([], uid, buf)
  | uid, f :: rest, buf =>
    if (encodeF f).length ≤ buf.length then
      let r := consume (nextUid uid f) rest (buf.drop (encodeF f).length)
      ((if uid = -1 then Ev.announce (beNat (f.2.take 2)) else Ev.msg (encodeF f)) :: r.1,
        r.2.1, r.2.2)
    else ([], uid, buf)

/-! ## Startup (main, lines 353-510)

Each system call is represented by its success, and startup by the
resulting process outcome.  The control-socket phase follows lines
401-447; note that the return value of ctrl_socket_listen (bind +
setsockopt + listen on the control path, lines 236-254) is ignored at
line 419, and that a connect failure other than ECONNREFUSED or ENOENT is
only logged (line 424), with startup continuing without a control
socket. -/

/-- Outcome of connect(ctrl_socket_path) at line 411. -/
inductive ConnectRes where
  | ok
  | refused
  | noent
  | otherErr
  deriving DecidableEq

/-- How the control endpoint starts. -/
inductive CtrlStart where
  | nocontrol
  | listening (healthy : Bool)
  | client
  deriving DecidableEq

/-- Process outcome of startup. -/
inductive StartOutcome where
  | exit1
  | run (ctrl : CtrlStart)
  deriving DecidableEq

/-- The control-socket phase (lines 401-447). -/
def ctrlPhase (path_configured unix_ok : Bool) (conn : ConnectRes)
    (unlink_ok ctrl_bind_ok ctrl_listen_ok send_ok reply_ok : Bool) :
    Option CtrlStart :=
  if !path_configured then some .nocontrol
  else if !unix_ok then none
  else
    match conn with
    | .refused =>
      if !unlink_ok then none
      else some (.listening (ctrl_bind_ok && ctrl_listen_ok))
    | .noent => some (.listening (ctrl_bind_ok && ctrl_listen_ok))
    | .otherErr => some .nocontrol
    | .ok =>
      if !send_ok then none
      else if !reply_ok then none
      else some .client

/-- The TCP-listener phase (lines 449-506): socket, IPV6_V6ONLY and
SO_REUSEADDR setsockopt, bind and listen must all succeed. -/
def tcpPhase (gai_ok sock_ok v6only_ok reuse_ok bind_ok listen_ok : Bool) : Bool :=
  gai_ok && sock_ok && v6only_ok && reuse_ok && bind_ok && listen_ok

/-- Startup: epoll_create (line 396), then the control-socket phase, then
the TCP listeners; any failure that the source pairs with exit(1) yields
exit1. -/
def startup (epoll_ok path_configured unix_ok : Bool) (conn : ConnectRes)
    (unlink_ok ctrl_bind_ok ctrl_listen_ok send_ok reply_ok : Bool)
    (gai_ok sock_ok v6only_ok reuse_ok bind_ok listen_ok : Bool) : StartOutcome :=
  if !epoll_ok then .exit1
  else
    match ctrlPhase path_configured unix_ok conn unlink_ok ctrl_bind_ok ctrl_listen_ok
        send_ok reply_ok with
    | none => .exit1
    | some ctrl =>
      if tcpPhase gai_ok sock_ok v6only_ok reuse_ok bind_ok listen_ok then .run ctrl
      else .exit1

/-! ## Byte-encoding lemmas -/

theorem beNat_be32 (n : Nat) (h : n < 2 ^ 32) : beNat (be32 n) = n := by
  simp only [beNat, be32, List.foldl]
  omega

theorem beNat_be16 (n : Nat) (h : n < 2 ^ 16) : beNat (be16 n) = n := by
  simp only [beNat, be16, List.foldl]
  omega

theorem be32_len (n : Nat) : (be32 n).length = 4 := rfl

theorem be16_len (n : Nat) : (be16 n).length = 2 := rfl

theorem toSigned32_small {n : Nat} (h : n < 2 ^ 31) : toSigned32 n = n := by
  simp only [toSigned32]
  rw [if_pos h]

theorem beNat_lt_65536 (l : List Nat) (h2 : l.length ≤ 2) (hb : ∀ b ∈ l, b < 256) :
    beNat l < 65536 := by
  match l, h2 with
  | [], _ => simp [beNat]
  | [a], _ =>
    have := hb a (by simp)
    simp only [beNat, List.foldl]
    omega
  | [a, b], _ =>
    have ha := hb a (by simp)
    have hbb := hb b (by simp)
    simp only [beNat, List.foldl]
    omega

theorem writeAt_split {pre mid post vals : List Nat} {i : Nat}
    (hi : pre.length = i) (hm : mid.length = vals.length) :
    writeAt (pre ++ (mid ++ post)) i vals = pre ++ (vals ++ post) := by
  subst hi
  unfold writeAt
  have h1 : (pre ++ (mid ++ post)).take pre.length = pre := List.take_left _ _
  have h2 : (pre ++ (mid ++ post)).drop (pre.length + vals.length) = post := by
    rw [← List.append_assoc]
    exact List.drop_left' (by simp [hm])
  rw [h1, h2, List.append_assoc]

/-- C3: for an addressed input frame (size, port, destuid, payload) whose
destination resolves (here through the peer cache; the index fallback
emits the same bytes), the frame written to the peer is exactly
(size - 2, port, payload) with length and port big-endian, the payload
unchanged; the rewrite overlays the inbound buffer at a 2-byte offset
(the output is a suffix view of the rewritten frame, no separate output
buffer), and the single write covers size + 2 bytes. -/
theorem C3_header_rewrite_law (s p d : Nat) (payload : List Nat)
    (hs4 : 4 ≤ s) (hs : s < 2 ^ 31) (hp : p < 2 ^ 16)
    (hpl : payload.length = s - 4) :
    emitBytes (be32 s ++ (be16 p ++ (be16 d ++ payload)))
        = be32 (s - 2) ++ (be16 p ++ payload) ∧
      rewriteFrame (be32 s ++ (be16 p ++ (be16 d ++ payload)))
        = (be32 s ++ (be16 p ++ (be16 d ++ payload))).take 2
            ++ emitBytes (be32 s ++ (be16 p ++ (be16 d ++ payload))) ∧
      (emitBytes (be32 s ++ (be16 p ++ (be16 d ++ payload)))).length = s + 2 ∧
      (∀ st idx src peer c, getC st src = some c →
        proxy_peers_find (uidOfS st) c.cache
            (destUidOf (be32 s ++ (be16 p ++ (be16 d ++ payload)))) = some peer →
        routeFrame st idx src (be32 s ++ (be16 p ++ (be16 d ++ payload)))
          = (st, [Act.forward peer
              (emitBytes (be32 s ++ (be16 p ++ (be16 d ++ payload))))])) := by
  have ht4 : (be32 s ++ (be16 p ++ (be16 d ++ payload))).take 4 = be32 s :=
    List.take_left' (be32_len s)
  have hsize : toSigned32 (beNat ((be32 s ++ (be16 p ++ (be16 d ++ payload))).take 4))
      = (s : Int) := by
    rw [ht4, beNat_be32 s (by omega), toSigned32_small hs]
  have hd4 : (be32 s ++ (be16 p ++ (be16 d ++ payload))).drop 4
      = be16 p ++ (be16 d ++ payload) := List.drop_left' (be32_len s)
  have hport : ((be32 s ++ (be16 p ++ (be16 d ++ payload))).drop 4).take 2 = be16 p := by
    rw [hd4]; exact List.take_left' (be16_len p)
  have hw1 : writeAt (be32 s ++ (be16 p ++ (be16 d ++ payload))) 6 (be16 p)
      = (be32 s ++ be16 p) ++ (be16 p ++ payload) := by
    have hassoc : be32 s ++ (be16 p ++ (be16 d ++ payload))
        = (be32 s ++ be16 p) ++ (be16 d ++ payload) := by
      rw [List.append_assoc]
    rw [hassoc]
    exact writeAt_split (by simp [be32, be16]) (by simp [be16])
  have hhtonl : htonlInt ((s : Int) - 2) = be32 (s - 2) := by
    unfold htonlInt
    congr 1
    have h1 : ((s : Int) - 2) % 2 ^ 32 = ((s - 2 : Nat) : Int) := by omega
    rw [h1]
    exact Int.toNat_natCast _
  have hre : (be32 s ++ be16 p) ++ (be16 p ++ payload)
      = [s / 2 ^ 24 % 256, s / 2 ^ 16 % 256]
        ++ ([s / 2 ^ 8 % 256, s % 256, p / 2 ^ 8 % 256, p % 256]
          ++ (be16 p ++ payload)) := by
    simp [be32, be16]
  have hw2 : writeAt ((be32 s ++ be16 p) ++ (be16 p ++ payload)) 2 (be32 (s - 2))
      = [s / 2 ^ 24 % 256, s / 2 ^ 16 % 256] ++ (be32 (s - 2) ++ (be16 p ++ payload)) := by
    rw [hre]
    exact writeAt_split rfl (by simp [be32])
  have hrw : rewriteFrame (be32 s ++ (be16 p ++ (be16 d ++ payload)))
      = [s / 2 ^ 24 % 256, s / 2 ^ 16 % 256] ++ (be32 (s - 2) ++ (be16 p ++ payload)) := by
    show writeAt (writeAt _ 6 (be16 (beNat ((_ : List Nat).drop 4 |>.take 2)))) 2 _ = _
    rw [hport, beNat_be16 p hp, hsize, hw1, hhtonl, hw2]
  have hemit : emitBytes (be32 s ++ (be16 p ++ (be16 d ++ payload)))
      = be32 (s - 2) ++ (be16 p ++ payload) := by
    show ((rewriteFrame _).drop 2).take
        ((toSigned32 (beNat ((_ : List Nat).take 4)) - 2 + 4).toNat) = _
    rw [hsize, hrw]
    have hdrop : ([s / 2 ^ 24 % 256, s / 2 ^ 16 % 256]
        ++ (be32 (s - 2) ++ (be16 p ++ payload))).drop 2
        = be32 (s - 2) ++ (be16 p ++ payload) := List.drop_left' rfl
    rw [hdrop]
    have htn : ((s : Int) - 2 + 4).toNat = s + 2 := by omega
    rw [htn]
    exact List.take_of_length_le (by simp [be32, be16, hpl]; omega)
  refine ⟨hemit, ?_, ?_, ?_⟩
  · have hf2 : be32 s ++ (be16 p ++ (be16 d ++ payload))
        = [s / 2 ^ 24 % 256, s / 2 ^ 16 % 256]
          ++ ([s / 2 ^ 8 % 256, s % 256] ++ (be16 p ++ (be16 d ++ payload))) := by
      simp [be32]
    have htake2 : (be32 s ++ (be16 p ++ (be16 d ++ payload))).take 2
        = [s / 2 ^ 24 % 256, s / 2 ^ 16 % 256] := by
      rw [hf2]; exact List.take_left' rfl
    rw [hrw, hemit, htake2]
  · rw [hemit]
    simp [be32, be16, hpl]
    omega
  · intro st idx src peer c hgc hfind
    unfold routeFrame
    rw [hgc]
    simp only [hfind]

/-- Witness for C3 at the concrete frame of spec scenario 1: size 8,
port 0x1234, destuid 42, payload DE AD BE EF, routed from connection 1
(uid 7) to the cached connection 0 (uid 42). -/
theorem C3_header_rewrite_law_witness :
    emitBytes (be32 8 ++ (be16 4660 ++ (be16 42 ++ [222, 173, 190, 239])))
        = be32 6 ++ (be16 4660 ++ [222, 173, 190, 239]) ∧
      routeFrame [(0, ⟨42, [], [], 2⟩), (1, ⟨7, [], [0], 1⟩)] [0, 1] 1
          (be32 8 ++ (be16 4660 ++ (be16 42 ++ [222, 173, 190, 239])))
        = ([(0, ⟨42, [], [], 2⟩), (1, ⟨7, [], [0], 1⟩)],
            [Act.forward 0
              (emitBytes (be32 8 ++ (be16 4660 ++ (be16 42 ++ [222, 173, 190, 239]))))]) := by
  have h := C3_header_rewrite_law 8 4660 42 [222, 173, 190, 239]
    (by decide) (by decide) (by decide) (by decide)
  exact ⟨h.1, h.2.2.2 [(0, ⟨42, [], [], 2⟩), (1, ⟨7, [], [0], 1⟩)] [0, 1] 1 0
    ⟨7, [], [0], 1⟩ (by decide) (by decide)⟩

/-! ## Store lemmas -/

theorem getC_setC_eq (s : Store) (id : Nat) (c : Conn) :
    getC (setC s id c) id = (getC s id).map (fun _ => c) := by
  induction s with
  | nil => rfl
  | cons hd tl ih =>
    obtain ⟨j, c0⟩ := hd
    by_cases h : j = id
    · subst h; simp [setC, getC]
    · simp [setC, getC, h, ih]

theorem getC_setC_ne (s : Store) {id j : Nat} (c : Conn) (h : j ≠ id) :
    getC (setC s j c) id = getC s id := by
  induction s with
  | nil => rfl
  | cons hd tl ih =>
    obtain ⟨k, c0⟩ := hd
    by_cases hk : k = j
    · subst hk; simp [setC, getC, h, ih]
    · by_cases hk2 : k = id
      · subst hk2; simp [setC, getC, hk, ih]
      · simp [setC, getC, hk, hk2, ih]

theorem getC_setC_none (s : Store) {id : Nat} (j : Nat) (c : Conn)
    (h : getC s id = none) : getC (setC s j c) id = none := by
  by_cases hj : j = id
  · subst hj; rw [getC_setC_eq, h]; rfl
  · rw [getC_setC_ne s c hj]; exact h

theorem getC_removeIdS_eq (s : Store) (id : Nat) : getC (removeIdS s id) id = none := by
  induction s with
  | nil => rfl
  | cons hd tl ih =>
    obtain ⟨j, c0⟩ := hd
    by_cases h : j = id
    · subst h; simp [removeIdS, ih]
    · simp [removeIdS, getC, h, ih]

theorem getC_removeIdS_ne (s : Store) {id j : Nat} (h : j ≠ id) :
    getC (removeIdS s j) id = getC s id := by
  induction s with
  | nil => rfl
  | cons hd tl ih =>
    obtain ⟨k, c0⟩ := hd
    by_cases hk : k = j
    · subst hk; simp [removeIdS, getC, h, ih]
    · simp [removeIdS, getC, hk, ih]

theorem getC_removeIdS_none (s : Store) {id : Nat} (j : Nat)
    (h : getC s id = none) : getC (removeIdS s j) id = none := by
  by_cases hj : j = id
  · subst hj; exact getC_removeIdS_eq s _
  · rw [getC_removeIdS_ne s hj]; exact h

theorem getC_releaseRefs_none {fuel : Nat} {s : Store} {w : List Nat} {id : Nat}
    (h : getC s id = none) : getC (releaseRefs fuel s w) id = none := by
  induction fuel generalizing s w with
  | zero => cases w <;> simpa [releaseRefs]
  | succ fuel ih =>
    cases w with
    | nil => simpa [releaseRefs]
    | cons j work =>
      simp only [releaseRefs]
      cases hj : getC s j with
      | none => exact ih h
      | some c =>
        by_cases hrc : c.refcount ≤ 1
        · simp only [if_pos hrc]
          exact ih (getC_removeIdS_none s j h)
        · simp only [if_neg hrc]
          exact ih (getC_setC_none s j _ h)

/-- releaseRefs only decrements refcounts and deallocates: a surviving
record keeps its uid, buffer and cache. -/
theorem getC_releaseRefs_fields {fuel : Nat} {s : Store} {w : List Nat} {id : Nat}
    {c' : Conn} (h : getC (releaseRefs fuel s w) id = some c') :
    ∃ c0, getC s id = some c0 ∧ c'.faf_uid = c0.faf_uid ∧ c'.buf = c0.buf ∧
      c'.cache = c0.cache := by
  induction fuel generalizing s w with
  | zero =>
    cases w with
    | nil => exact ⟨c', by simpa [releaseRefs] using h, rfl, rfl, rfl⟩
    | cons j work => exact ⟨c', by simpa [releaseRefs] using h, rfl, rfl, rfl⟩
  | succ fuel ih =>
    cases w with
    | nil => exact ⟨c', by simpa [releaseRefs] using h, rfl, rfl, rfl⟩
    | cons j work =>
      simp only [releaseRefs] at h
      cases hj : getC s j with
      | none =>
        rw [hj] at h
        dsimp only at h
        exact ih h
      | some c =>
        rw [hj] at h
        dsimp only at h
        by_cases hrc : c.refcount ≤ 1
        · rw [if_pos hrc] at h
          obtain ⟨c0, hc0, hf⟩ := ih h
          by_cases hid : j = id
          · subst hid
            rw [getC_removeIdS_eq] at hc0
            exact absurd hc0 (by simp)
          · rw [getC_removeIdS_ne s hid] at hc0
            exact ⟨c0, hc0, hf⟩
        · rw [if_neg hrc] at h
          obtain ⟨c0, hc0, hf1, hf2, hf3⟩ := ih h
          by_cases hid : j = id
          · subst hid
            rw [getC_setC_eq, hj] at hc0
            injection hc0 with hc0
            subst hc0
            exact ⟨c, hj, hf1, hf2, hf3⟩
          · rw [getC_setC_ne s _ hid] at hc0
            exact ⟨c0, hc0, hf1, hf2, hf3⟩

theorem uidOfS_setC_ne (s : Store) {id j : Nat} (c : Conn) (h : j ≠ id) :
    uidOfS (setC s j c) id = uidOfS s id := by
  unfold uidOfS
  rw [getC_setC_ne s c h]

theorem uidOfS_setC_self {s : Store} {id : Nat} {c0 : Conn} (c : Conn)
    (h : getC s id = some c0) : uidOfS (setC s id c) id = c.faf_uid := by
  unfold uidOfS
  rw [getC_setC_eq, h]
  rfl

theorem find?_congr_mem {l : List Nat} {p q : Nat → Bool}
    (h : ∀ x ∈ l, p x = q x) : l.find? p = l.find? q := by
  induction l with
  | nil => rfl
  | cons a tl ih =>
    have ha := h a (by simp)
    simp only [List.find?, ha]
    cases hq : q a with
    | true => rfl
    | false => exact ih (fun x hx => h x (by simp [hx]))

theorem getC_incRefS_ne (s : Store) {p id : Nat} (h : p ≠ id) :
    getC (incRefS s p) id = getC s id := by
  unfold incRefS
  cases hp : getC s p with
  | none => rfl
  | some c => exact getC_setC_ne s _ h

theorem getC_incRefS_self {s : Store} {p : Nat} {cp : Conn} (h : getC s p = some cp) :
    getC (incRefS s p) p = some { cp with refcount := cp.refcount + 1 } := by
  unfold incRefS
  rw [h, getC_setC_eq, h]
  rfl

theorem getC_incRefS_none {s : Store} {p id : Nat} (h : getC s id = none) :
    getC (incRefS s p) id = none := by
  unfold incRefS
  cases hp : getC s p with
  | none => exact h
  | some c => exact getC_setC_none s _ _ h

theorem releaseRefs_nil (fuel : Nat) (s : Store) : releaseRefs fuel s [] = s := by
  cases fuel <;> rfl

/-! ## C5: the bounded MRU peer cache -/

/-- C5: proxy_peers::add on the cache of src, inserting p (p a different
connection, as in the source where add runs only after a cache miss).
With at most 16 entries before, there are at most 16 after and p sits at
position 0.  Below capacity the new cache is exactly p in front of the
old entries (the rotation loop shifts each one slot back) and p's
refcount is incremented.  At capacity exactly the tail (oldest) entry t
is evicted first: one reference of t is released — t is destroyed iff its
refcount reaches 0 — and then p is inserted in front of the remaining 15
entries with its refcount incremented. -/
theorem C5_bounded_mru_cache (s : Store) (src p : Nat) (c : Conn)
    (hc : getC s src = some c) (h16 : c.cache.length ≤ 16) (hps : p ≠ src) :
    (∀ c', getC (cacheAddS s src p) src = some c' →
        c'.cache.length ≤ 16 ∧ c'.cache.head? = some p) ∧
      (c.cache.length < 16 →
        getC (cacheAddS s src p) src = some { c with cache := p :: c.cache } ∧
        ∀ cp, getC s p = some cp →
          getC (cacheAddS s src p) p = some { cp with refcount := cp.refcount + 1 }) ∧
      (c.cache.length = 16 →
        (∀ c', getC (cacheAddS s src p) src = some c' →
          c'.cache = p :: c.cache.dropLast ∧ c'.cache.length = 16) ∧
        (∀ ct, getC s (c.cache.getLastD 0) = some ct → c.cache.getLastD 0 ≠ src →
          (ct.refcount ≤ 1 → getC (cacheAddS s src p) (c.cache.getLastD 0) = none) ∧
          (2 ≤ ct.refcount → p ≠ c.cache.getLastD 0 →
            getC (cacheAddS s src p) (c.cache.getLastD 0)
                = some { ct with refcount := ct.refcount - 1 } ∧
            ∀ cp, getC s p = some cp →
              getC (cacheAddS s src p) p = some { cp with refcount := cp.refcount + 1 }))) := by
  by_cases hlt : c.cache.length < 16
  · have hadd : cacheAddS s src p
        = incRefS (setC s src { c with cache := p :: c.cache }) p := by
      unfold cacheAddS
      rw [hc]
      exact if_pos hlt
    have hsrc' : getC (cacheAddS s src p) src = some { c with cache := p :: c.cache } := by
      rw [hadd, getC_incRefS_ne _ hps, getC_setC_eq, hc]
      rfl
    refine ⟨?_, fun _ => ⟨hsrc', fun cp hcp => ?_⟩, fun h16' => absurd h16' (by omega)⟩
    · intro c' hc'
      rw [hsrc'] at hc'
      injection hc' with hc'
      subst hc'
      exact ⟨by simp; omega, rfl⟩
    · rw [hadd]
      have hXp : getC (setC s src { c with cache := p :: c.cache }) p = some cp := by
        rw [getC_setC_ne s _ (Ne.symm hps)]
        exact hcp
      exact getC_incRefS_self hXp
  · have h16eq : c.cache.length = 16 := by omega
    have hadd : cacheAddS s src p
        = (match getC (releaseRefs (relFuel s) s [c.cache.getLastD 0]) src with
           | none => releaseRefs (relFuel s) s [c.cache.getLastD 0]
           | some c1 =>
             incRefS (setC (releaseRefs (relFuel s) s [c.cache.getLastD 0]) src
               { c1 with cache := p :: c1.cache.dropLast }) p) := by
      unfold cacheAddS
      rw [hc]
      exact if_neg hlt
    obtain ⟨k, hk⟩ : ∃ k, relFuel s = k + 1 := ⟨17 * s.length + 16, by unfold relFuel; omega⟩
    have hDall : ∀ c', getC (cacheAddS s src p) src = some c' →
        c'.cache = p :: c.cache.dropLast ∧ c'.cache.length = 16 := by
      intro c' hc'
      rw [hadd] at hc'
      cases hs1 : getC (releaseRefs (relFuel s) s [c.cache.getLastD 0]) src with
      | none =>
        rw [hs1] at hc'
        dsimp only at hc'
        exact absurd hc' (by rw [hs1]; simp)
      | some c1 =>
        rw [hs1] at hc'
        dsimp only at hc'
        rw [getC_incRefS_ne _ hps, getC_setC_eq, hs1] at hc'
        injection hc' with hc'
        subst hc'
        obtain ⟨c0, hc0, _, _, hcache⟩ := getC_releaseRefs_fields hs1
        rw [hc] at hc0
        injection hc0 with hc0
        subst hc0
        refine ⟨by rw [hcache], ?_⟩
        have : c1.cache.dropLast.length = 15 := by
          rw [hcache]
          simp [h16eq]
        simp [this]
    refine ⟨?_, fun h' => absurd h' (by omega), fun _ => ⟨hDall, ?_⟩⟩
    · intro c' hc'
      obtain ⟨hca, hlen⟩ := hDall c' hc'
      exact ⟨by omega, by rw [hca]; rfl⟩
    · intro ct hct hts
      constructor
      · intro hrc1
        have hs1eq : releaseRefs (relFuel s) s [c.cache.getLastD 0]
            = releaseRefs k (removeIdS s (c.cache.getLastD 0)) (ct.cache ++ []) := by
          rw [hk]
          simp only [releaseRefs]
          rw [hct]
          dsimp only
          rw [if_pos hrc1]
        have hnone : getC (releaseRefs (relFuel s) s [c.cache.getLastD 0])
            (c.cache.getLastD 0) = none := by
          rw [hs1eq]
          exact getC_releaseRefs_none (getC_removeIdS_eq _ _)
        rw [hadd]
        cases hs1 : getC (releaseRefs (relFuel s) s [c.cache.getLastD 0]) src with
        | none => exact hnone
        | some c1 =>
          dsimp only
          rw [getC_incRefS_none (getC_setC_none _ _ _ hnone)]
      · intro hrc2 hpt
        have hs1eq : releaseRefs (relFuel s) s [c.cache.getLastD 0]
            = setC s (c.cache.getLastD 0) { ct with refcount := ct.refcount - 1 } := by
          rw [hk]
          simp only [releaseRefs]
          rw [hct]
          dsimp only
          rw [if_neg (by omega)]
        have hs1src : getC (releaseRefs (relFuel s) s [c.cache.getLastD 0]) src
            = some c := by
          rw [hs1eq, getC_setC_ne s _ hts]
          exact hc
        have hadd2 : cacheAddS s src p
            = incRefS (setC (releaseRefs (relFuel s) s [c.cache.getLastD 0]) src
                { c with cache := p :: c.cache.dropLast }) p := by
          rw [hadd, hs1src]
        have hs1t : getC (releaseRefs (relFuel s) s [c.cache.getLastD 0])
            (c.cache.getLastD 0) = some { ct with refcount := ct.refcount - 1 } := by
          rw [hs1eq, getC_setC_eq, hct]
          rfl
        constructor
        · rw [hadd2, getC_incRefS_ne _ hpt, getC_setC_ne _ _ (fun h => hts h.symm)]
          exact hs1t
        · intro cp hcp
          have hXp : getC (setC (releaseRefs (relFuel s) s [c.cache.getLastD 0]) src
              { c with cache := p :: c.cache.dropLast }) p = some cp := by
            rw [getC_setC_ne _ _ (Ne.symm hps), hs1eq,
              getC_setC_ne s _ (Ne.symm hpt)]
            exact hcp
          rw [hadd2]
          exact getC_incRefS_self hXp

/-- Witness for C5 at a concrete two-connection store: src 0 with an
empty cache adds peer 1; the cache becomes [1] and peer 1's refcount
rises from 1 to 2. -/
theorem C5_bounded_mru_cache_witness :
    getC (cacheAddS [(0, ⟨1, [], [], 1⟩), (1, ⟨2, [], [], 1⟩)] 0 1) 0
        = some ⟨1, [], [1], 1⟩ ∧
      getC (cacheAddS [(0, ⟨1, [], [], 1⟩), (1, ⟨2, [], [], 1⟩)] 0 1) 1
        = some ⟨2, [], [], 2⟩ := by
  have h := C5_bounded_mru_cache [(0, ⟨1, [], [], 1⟩), (1, ⟨2, [], [], 1⟩)] 0 1
    ⟨1, [], [], 1⟩ (by decide) (by decide) (by decide)
  have h2 := h.2.1 (by decide)
  exact ⟨h2.1, h2.2 ⟨2, [], [], 1⟩ (by decide)⟩

/-! ## Parse-loop step lemmas -/

theorem parseLoop_stop (cap fuel : Nat) (uid : Int) (buf : List Nat)
    (h4 : buf.length < 4) (hf : 1 ≤ fuel) : parseLoop cap fuel uid buf = .ok [] uid buf := by
  cases fuel with
  | zero => omega
  | succ f =>
    simp only [parseLoop]
    rw [if_pos h4]

/-- One parse-loop pass over a complete well-formed announce frame
followed by fewer than 4 surviving bytes: the announce event is emitted,
the uid becomes the announced 16-bit value, and the surviving bytes
remain. -/
theorem parseLoop_single_announce (cap s : Nat) (body tail0 : List Nat) (fuel : Nat)
    (hblen : body.length = s) (hs2 : 2 ≤ s) (hcap : s + 4 ≤ cap) (hcap31 : cap < 2 ^ 31)
    (htail : tail0.length < 4)
    (hfuel : (be32 s ++ (body ++ tail0)).length < fuel) :
    parseLoop cap fuel (-1) (be32 s ++ (body ++ tail0))
      = .ok [Ev.announce (beNat (body.take 2))] (beNat (body.take 2)) tail0 := by
  have hlen : (be32 s ++ (body ++ tail0)).length = 4 + (s + tail0.length) := by
    simp [be32, hblen]
    omega
  cases fuel with
  | zero => omega
  | succ f =>
    have htake : (be32 s ++ (body ++ tail0)).take 4 = be32 s := List.take_left' (be32_len s)
    have hdrop4 : (be32 s ++ (body ++ tail0)).drop 4 = body ++ tail0 :=
      List.drop_left' (be32_len s)
    have hu : (body ++ tail0).take 2 = body.take 2 := by
      rw [List.take_append_eq_append_take]
      have : 2 - body.length = 0 := by omega
      rw [this]
      simp
    have hdropAdv : (be32 s ++ (body ++ tail0)).drop (s + 4) = tail0 := by
      rw [← List.append_assoc]
      exact List.drop_left' (by simp [be32, hblen])
    have hadv : (((s : Nat) : Int) + 4).toNat = s + 4 := by omega
    simp only [parseLoop]
    rw [if_neg (by omega), htake, beNat_be32 s (by omega), toSigned32_small (by omega)]
    rw [if_neg (by omega)]
    rw [if_neg (by rw [hlen]; omega)]
    simp only [if_true]
    rw [hdrop4, hu, hadv, hdropAdv]
    rw [parseLoop_stop cap f _ tail0 htail (by omega)]

/-! ## C4 machinery: the parse loop against the greedy frame consumer -/

theorem take_of_ex {l X : List Nat} {k : Nat} (h : ∃ t, l ++ t = X)
    (hk : k ≤ l.length) : l.take k = X.take k := by
  obtain ⟨t, ht⟩ := h
  rw [← ht, List.take_append_eq_append_take, Nat.sub_eq_zero_of_le hk]
  simp

theorem take_drop_of_ex {l a b : List Nat} (h : ∃ t, l ++ t = a ++ b)
    (hlen : a.length ≤ l.length) :
    l.take a.length = a ∧ ∃ t, l.drop a.length ++ t = b := by
  obtain ⟨t, ht⟩ := h
  constructor
  · have h1 : (l ++ t).take a.length = l.take a.length := by
      rw [List.take_append_eq_append_take, Nat.sub_eq_zero_of_le hlen]
      simp
    rw [← h1, ht]
    exact List.take_left _ _
  · refine ⟨t, ?_⟩
    have h3 : (l ++ t).drop a.length = l.drop a.length ++ t := by
      rw [List.drop_append_eq_append_drop, Nat.sub_eq_zero_of_le hlen]
      simp
    rw [← h3, ht]
    exact List.drop_left _ _

theorem encodeF_len (f : Nat × List Nat) (hb : f.2.length = f.1) :
    (encodeF f).length = 4 + f.1 := by
  simp [encodeF, be32, hb]
  omega

/-- The parse loop on a buffer that is an initial segment of a
well-formed frame stream behaves exactly like the greedy consumer: it
emits the events of every wholly buffered frame, in order, and stops on
the partial tail. -/
theorem parseLoop_eq_consume (cap : Nat) (hcap : cap < 2 ^ 31) :
    ∀ (frames : List (Nat × List Nat)) (uid : Int) (buf : List Nat) (fuel : Nat),
      wfFrames cap uid frames →
      (∃ t, buf ++ t = (frames.map encodeF).flatten) →
      buf.length < fuel →
      parseLoop cap fuel uid buf
        = .ok (consume uid frames buf).1 (consume uid frames buf).2.1
            (consume uid frames buf).2.2 := by
  intro frames
  induction frames with
  | nil =>
    intro uid buf fuel hwf hex hfuel
    have hbuf : buf = [] := by
      obtain ⟨t, ht⟩ := hex
      simp only [List.map_nil, List.flatten_nil] at ht
      exact (List.append_eq_nil.mp ht).1
    subst hbuf
    rw [parseLoop_stop cap fuel uid [] (by simp) (by omega)]
    rfl
  | cons f rest ih =>
    intro uid buf fuel hwf hex hfuel
    obtain ⟨hb, hc4, ha, hwrest⟩ := hwf
    have hlenF : (encodeF f).length = 4 + f.1 := encodeF_len f hb
    have hjoin : ((f :: rest).map encodeF).flatten
        = encodeF f ++ (rest.map encodeF).flatten := by simp
    by_cases hle : (encodeF f).length ≤ buf.length
    · -- the head frame is wholly buffered
      have hex' : ∃ t, buf ++ t = encodeF f ++ (rest.map encodeF).flatten := by
        rw [← hjoin]; exact hex
      obtain ⟨htake, hdropex⟩ := take_drop_of_ex hex' hle
      have hsplitbuf : buf = encodeF f ++ buf.drop (encodeF f).length := by
        conv_lhs => rw [← List.take_append_drop (encodeF f).length buf]
        rw [htake]
      have ht4 : buf.take 4 = be32 f.1 := by
        have h1 : (buf.take (encodeF f).length).take 4 = buf.take 4 := by
          rw [List.take_take]
          congr 1
          omega
        rw [← h1, htake]
        exact List.take_left' (be32_len f.1)
      cases fuel with
      | zero => omega
      | succ k =>
        have hfr : f.1 < 2 ^ 31 := by omega
        simp only [parseLoop]
        rw [if_neg (by omega), ht4, beNat_be32 f.1 (by omega), toSigned32_small hfr]
        rw [if_neg (by omega), if_neg (by omega)]
        have hadv : (((f.1 : Nat) : Int) + 4).toNat = (encodeF f).length := by omega
        rw [hadv]
        have hihx := ih (nextUid uid f) (buf.drop (encodeF f).length) k hwrest hdropex
          (by have := List.length_drop (encodeF f).length buf; omega)
        by_cases huid : uid = -1
        · subst huid
          have hu2 : (buf.drop 4).take 2 = f.2.take 2 := by
            conv_lhs => rw [hsplitbuf]
            have hassoc : encodeF f ++ buf.drop (encodeF f).length
                = be32 f.1 ++ (f.2 ++ buf.drop (encodeF f).length) := by
              simp [encodeF]
            rw [hassoc, List.drop_left' (be32_len f.1), List.take_append_eq_append_take]
            have : 2 - f.2.length = 0 := by omega
            rw [this]
            simp
          rw [if_pos rfl, hu2]
          have hnx : nextUid (-1) f = (beNat (f.2.take 2) : Int) := by
            simp [nextUid]
          rw [← hnx, hihx]
          have hcon : consume (-1) (f :: rest) buf
              = ((Ev.announce (beNat (f.2.take 2))) ::
                  (consume (nextUid (-1) f) rest (buf.drop (encodeF f).length)).1,
                (consume (nextUid (-1) f) rest (buf.drop (encodeF f).length)).2.1,
                (consume (nextUid (-1) f) rest (buf.drop (encodeF f).length)).2.2) := by
            simp only [consume]
            rw [if_pos hle]
            simp
          rw [hcon]
        · rw [if_neg huid]
          have hnx : nextUid uid f = uid := by simp [nextUid, huid]
          rw [hnx] at hihx
          rw [hihx, htake]
          have hcon : consume uid (f :: rest) buf
              = ((Ev.msg (encodeF f)) ::
                  (consume uid rest (buf.drop (encodeF f).length)).1,
                (consume uid rest (buf.drop (encodeF f).length)).2.1,
                (consume uid rest (buf.drop (encodeF f).length)).2.2) := by
            simp only [consume]
            rw [if_pos hle, hnx]
            simp [huid]
          rw [hcon]
    · -- only a partial head frame is buffered: the loop stops
      have hcon : consume uid (f :: rest) buf = ([], uid, buf) := by
        simp only [consume]
        rw [if_neg hle]
      rw [hcon]
      by_cases h4 : buf.length < 4
      · exact parseLoop_stop cap fuel uid buf h4 (by omega)
      · have ht4 : buf.take 4 = be32 f.1 := by
          have h1 : buf.take 4 = (((f :: rest).map encodeF).flatten).take 4 :=
            take_of_ex hex (by omega)
          rw [h1, hjoin, List.take_append_eq_append_take]
          have h2 : 4 - (encodeF f).length = 0 := by omega
          rw [h2]
          have h3 : (encodeF f).take 4 = be32 f.1 := by
            have : encodeF f = be32 f.1 ++ f.2 := rfl
            rw [this]
            exact List.take_left' (be32_len f.1)
          simp [h3]
        cases fuel with
        | zero => omega
        | succ k =>
          have hfr : f.1 < 2 ^ 31 := by omega
          simp only [parseLoop]
          rw [if_neg (by omega), ht4, beNat_be32 f.1 (by omega), toSigned32_small hfr]
          rw [if_neg (by omega)]
          rw [if_pos (by omega)]

theorem specEvents_append (a : List (Nat × List Nat)) :
    ∀ (uid : Int) (b : List (Nat × List Nat)),
      specEvents uid (a ++ b) = specEvents uid a ++ specEvents (uidAfter uid a) b := by
  induction a with
  | nil => intro uid b; simp [specEvents, uidAfter]
  | cons f rest ih =>
    intro uid b
    simp only [List.cons_append, specEvents, List.append_eq]
    rw [ih (nextUid uid f) b]
    rfl

theorem uidAfter_append (uid : Int) (a b : List (Nat × List Nat)) :
    uidAfter uid (a ++ b) = uidAfter (uidAfter uid a) b := by
  unfold uidAfter
  exact List.foldl_append _ _ _ _

/-- Decomposition of the greedy consumer on an initial segment of a
well-formed frame stream: some initial frames are wholly contained and
consumed; what survives is a proper prefix of the next frame (or nothing
when every frame was consumed). -/
theorem consume_decomp (cap : Nat) :
    ∀ (frames : List (Nat × List Nat)) (uid : Int) (buf : List Nat),
      wfFrames cap uid frames →
      (∃ t, buf ++ t = (frames.map encodeF).flatten) →
      ∃ done pend,
        frames = done ++ pend ∧
        buf = (done.map encodeF).flatten ++ (consume uid frames buf).2.2 ∧
        (consume uid frames buf).1 = specEvents uid done ∧
        (consume uid frames buf).2.1 = uidAfter uid done ∧
        wfFrames cap (uidAfter uid done) pend ∧
        (∃ t, (consume uid frames buf).2.2 ++ t = (pend.map encodeF).flatten) ∧
        (match pend with
         | [] => (consume uid frames buf).2.2 = []
         | g :: _ => (consume uid frames buf).2.2.length < (encodeF g).length) := by
  intro frames
  induction frames with
  | nil =>
    intro uid buf hwf hex
    have hbuf : buf = [] := by
      obtain ⟨t, ht⟩ := hex
      simp only [List.map_nil, List.flatten_nil] at ht
      exact (List.append_eq_nil.mp ht).1
    subst hbuf
    exact ⟨[], [], rfl, rfl, rfl, rfl, trivial, ⟨[], rfl⟩, rfl⟩
  | cons f rest ih =>
    intro uid buf hwf hex
    obtain ⟨hb, hc4, ha, hwrest⟩ := hwf
    have hjoin : ((f :: rest).map encodeF).flatten
        = encodeF f ++ (rest.map encodeF).flatten := by simp
    by_cases hle : (encodeF f).length ≤ buf.length
    · have hex' : ∃ t, buf ++ t = encodeF f ++ (rest.map encodeF).flatten := by
        rw [← hjoin]; exact hex
      obtain ⟨htake, hdropex⟩ := take_drop_of_ex hex' hle
      have hsplitbuf : buf = encodeF f ++ buf.drop (encodeF f).length := by
        conv_lhs => rw [← List.take_append_drop (encodeF f).length buf]
        rw [htake]
      obtain ⟨done', pend, hfr, hbufdec, hevs, huidaf, hwfpend, hexrem, hpartrem⟩ :=
        ih (nextUid uid f) (buf.drop (encodeF f).length) hwrest hdropex
      have hcon : consume uid (f :: rest) buf
          = ((if uid = -1 then Ev.announce (beNat (f.2.take 2)) else Ev.msg (encodeF f)) ::
              (consume (nextUid uid f) rest (buf.drop (encodeF f).length)).1,
            (consume (nextUid uid f) rest (buf.drop (encodeF f).length)).2.1,
            (consume (nextUid uid f) rest (buf.drop (encodeF f).length)).2.2) := by
        simp only [consume]
        rw [if_pos hle]
      refine ⟨f :: done', pend, by rw [hfr]; rfl, ?_, ?_, ?_, ?_, ?_, ?_⟩
      · rw [hcon]
        dsimp only
        conv_lhs => rw [hsplitbuf, hbufdec]
        simp
      · rw [hcon, hevs]
        simp [specEvents]
      · rw [hcon]
        dsimp only
        rw [huidaf]
        rfl
      · exact hwfpend
      · rw [hcon]
        exact hexrem
      · rw [hcon]
        exact hpartrem
    · have hcon : consume uid (f :: rest) buf = ([], uid, buf) := by
        simp only [consume]
        rw [if_neg hle]
      refine ⟨[], f :: rest, rfl, by rw [hcon]; rfl, by rw [hcon]; rfl,
        by rw [hcon]; rfl, ⟨hb, hc4, ha, hwrest⟩, by rw [hcon]; exact hex, ?_⟩
      rw [hcon]
      dsimp only
      omega

/-- Feeding a byte stream that concatenates to a well-formed frame
sequence, in any chunking, produces exactly the events of the whole
stream with an empty surviving buffer. -/
theorem feedChunks_eq_spec (cap : Nat) (hcap : cap < 2 ^ 31) :
    ∀ (chunks : List (List Nat)) (uid : Int) (buf : List Nat)
      (frames : List (Nat × List Nat)),
      wfFrames cap uid frames →
      buf ++ chunks.flatten = (frames.map encodeF).flatten →
      (match frames with
       | [] => buf = []
       | g :: _ => buf.length < (encodeF g).length) →
      feedChunks cap uid buf chunks
        = some (specEvents uid frames, uidAfter uid frames, []) := by
  intro chunks
  induction chunks with
  | nil =>
    intro uid buf frames hwf heq hpart
    cases frames with
    | nil =>
      have hbuf : buf = [] := by simpa using heq
      subst hbuf
      rfl
    | cons g gs =>
      exfalso
      have hbuf : buf = ((g :: gs).map encodeF).flatten := by simpa using heq
      have hlen := congrArg List.length hbuf
      simp only [List.map_cons, List.flatten_cons, List.length_append] at hlen
      omega
  | cons ch chunks ih =>
    intro uid buf frames hwf heq hpart
    have hex1 : ∃ t, (buf ++ ch) ++ t = (frames.map encodeF).flatten := by
      refine ⟨chunks.flatten, ?_⟩
      rw [List.append_assoc]
      simpa using heq
    have hparse := parseLoop_eq_consume cap hcap frames uid (buf ++ ch)
      ((buf ++ ch).length + 1) hwf hex1 (by omega)
    obtain ⟨done, pend, hfr, hbufdec, hevs, huidaf, hwfpend, hexrem, hpartrem⟩ :=
      consume_decomp cap frames uid (buf ++ ch) hwf hex1
    have heq2 : (consume uid frames (buf ++ ch)).2.2 ++ chunks.flatten
        = (pend.map encodeF).flatten := by
      have h1 : (buf ++ ch) ++ chunks.flatten = (frames.map encodeF).flatten := by
        rw [List.append_assoc]
        simpa using heq
      rw [hbufdec, List.append_assoc] at h1
      conv at h1 =>
        rhs
        rw [hfr, List.map_append, List.flatten_append]
      exact List.append_cancel_left h1
    simp only [feedChunks, feedChunk]
    rw [hparse]
    dsimp only
    rw [ih (consume uid frames (buf ++ ch)).2.1 (consume uid frames (buf ++ ch)).2.2 pend
      (by rw [huidaf]; exact hwfpend) (by rw [heq2]) (by exact hpartrem)]
    dsimp only
    rw [hevs, huidaf, hfr, specEvents_append, uidAfter_append]

/-- C4: the frame boundary law.  For every well-formed frame stream on
one connection and every partition of the concatenated bytes into read
chunks, feeding the chunks through the parse loop emits exactly the
events of the whole stream in order — the parse of the full
concatenation — with an empty buffer at the end.  After each readiness
event the surviving partial-frame bytes are the connection's new buffer
contents (the model's leftover list is the buffer compacted to the
front, as the copy loop of lines 835-844 effects). -/
theorem C4_frame_boundary_law (cap : Nat) (uid0 : Int)
    (frames : List (Nat × List Nat)) (chunks : List (List Nat))
    (hcap : cap < 2 ^ 31) (hwf : wfFrames cap uid0 frames)
    (hcover : chunks.flatten = (frames.map encodeF).flatten) :
    feedChunks cap uid0 [] chunks
      = some (specEvents uid0 frames, uidAfter uid0 frames, []) := by
  apply feedChunks_eq_spec cap hcap chunks uid0 [] frames hwf
  · simpa using hcover
  · cases frames with
    | nil => rfl
    | cons g gs =>
      obtain ⟨hb, _, _, _⟩ := hwf
      have hl := encodeF_len g hb
      simp only [List.length_nil, hl]
      omega

/-- Witness for C4 at spec scenarios 1 and 3: the six announce bytes of
uid 42 followed by an 8-byte addressed frame, delivered one byte per
readiness event. -/
theorem C4_frame_boundary_law_witness :
    feedChunks 3928 (-1) []
        [[0], [0], [0], [2], [0], [42], [0], [0], [0], [8], [18], [52], [0], [42],
          [222], [173], [190], [239]]
      = some ([Ev.announce 42, Ev.msg [0, 0, 0, 8, 18, 52, 0, 42, 222, 173, 190, 239]],
          42, []) := by
  have h := C4_frame_boundary_law 3928 (-1)
    [(2, [0, 42]), (8, [18, 52, 0, 42, 222, 173, 190, 239])]
    [[0], [0], [0], [2], [0], [42], [0], [0], [0], [8], [18], [52], [0], [42],
      [222], [173], [190], [239]]
    (by norm_num)
    ⟨rfl, by norm_num, fun _ => by norm_num,
      rfl, by norm_num, fun _ => by norm_num, trivial⟩
    (by decide)
  simpa [specEvents, uidAfter, nextUid, encodeF, be32, beNat, List.foldl] using h

/-! ## C2: the oversize-frame check -/

/-- C2: evaluations of the parse loop at the inputs where the claimed
fatal-error behaviour and the code diverge.  With capacity
FDCTX_CLIENT_BUFSIZE = 3928: a frame announcing size 3926 (so
size + 4 = 3930 exceeds the capacity, fatal per the claim) merely stalls
— the loop stops waiting for a completion that can never fit; a size of
2^31 wraps to a negative in_msg_size, passes both comparisons, and the
parser gets stuck (the C pointer arithmetic walks the buffer head
backwards — undefined behaviour), rather than closing the socket; only a
size strictly above the capacity but below 2^31, such as 3930, takes the
fatal path. -/
theorem C2_oversize_check_evaluation :
    parseLoop FDCTX_CLIENT_BUFSIZE 2 (-1) (be32 3926)
        = .ok [] (-1) (be32 3926) ∧
      parseLoop FDCTX_CLIENT_BUFSIZE 5 (-1) (be32 (2 ^ 31)) = .stuck ∧
      parseLoop FDCTX_CLIENT_BUFSIZE 2 (-1) (be32 3930) = .fatal [] := by decide

/-! ## C6: tombstoned cache entries are not swept on access -/

/-- C6: a peer cache holding the single tombstoned entry 7 (its target's
faf_uid reset to -1 on close).  The only cache access the router performs
is proxy_peers::find, which merely scans for uid equality and removes
nothing, so the lookup misses and the tombstone stays; the sweeper
proxy_peers_cleanup_dangling, which would drop the entry and destroy the
target (refcount 1 reaching 0), is defined in the source but called from
nowhere. -/
theorem C6_tombstone_not_swept_on_access :
    proxy_peers_find (fun q => if q = 7 then (-1 : Int) else 0) [7] 42 = none ∧
      (proxy_peers_cleanup_dangling (fun q => if q = 7 then (-1 : Int) else 0) [7]
        (fun _ => 1)).1 = [] ∧
      (proxy_peers_cleanup_dangling (fun q => if q = 7 then (-1 : Int) else 0) [7]
        (fun _ => 1)).2.2 = [7] := by
  refine ⟨by decide, ?_, ?_⟩ <;> simp [proxy_peers_cleanup_dangling]

/-! ## C9: forwarded traffic is never routed to a closed connection -/

/-- C9: (1) proxy_peers::find matches on uid equality only, so a lookup
for any decoded destination uid u (0 <= u <= 65535) can only return an
entry whose uid is u — never a tombstoned entry, whose uid is -1;
(2) on the close path, a connection that survives destruction because it
is still cache-referenced has its faf_uid set to -1 before it lingers;
(3) the uid the router looks up is ntohs of two received bytes, hence
between 0 and 65535. -/
theorem C9_no_routing_to_closed :
    (∀ (uidOf : Nat → Int) (cache : List Nat) (u : Int) (q : Nat),
        0 ≤ u → u ≤ 65535 →
        proxy_peers_find uidOf cache u = some q → uidOf q = u ∧ uidOf q ≠ -1) ∧
      (∀ (s : Store) (idx : List Nat) (id : Nat) (c' : Conn),
        getC (closeConn s idx id).1 id = some c' → c'.faf_uid = -1) ∧
      (∀ frame : List Nat, (∀ b ∈ frame, b < 256) → destUidOf frame ≤ 65535) := by
  refine ⟨?_, ?_, ?_⟩
  · intro uidOf cache u q h0 h1 hfind
    have := List.find?_some hfind
    have heq : uidOf q = u := by simpa using this
    exact ⟨heq, by omega⟩
  · intro s idx id c' h
    unfold closeConn at h
    cases hc : getC s id with
    | none =>
      rw [hc] at h
      dsimp only at h
      rw [hc] at h
      cases h
    | some c =>
      rw [hc] at h
      dsimp only at h
      cases h1 : getC (removeFromAllPeers s id c.cache) id with
      | none =>
        rw [h1] at h
        dsimp only at h
        rw [h1] at h
        cases h
      | some c1 =>
        rw [h1] at h
        dsimp only at h
        by_cases hrc : c1.refcount ≤ 1
        · rw [if_pos hrc] at h
          dsimp only at h
          rw [getC_releaseRefs_none (getC_removeIdS_eq _ _)] at h
          cases h
        · rw [if_neg hrc] at h
          dsimp only at h
          rw [getC_setC_eq, h1] at h
          injection h with h
          rw [← h]
  · intro frame hb
    have hsub : ∀ b ∈ (frame.drop 6).take 2, b < 256 := by
      intro b hbmem
      exact hb b (List.drop_subset 6 frame (List.take_subset 2 _ hbmem))
    have hlen : ((frame.drop 6).take 2).length ≤ 2 := by
      simp [List.length_take_le]
    have := beNat_lt_65536 _ hlen hsub
    unfold destUidOf
    omega

/-- Witness for C9: a cache lookup for uid 5 returning the entry with
uid 5; closing connection 0 (refcount 2, still cache-referenced) leaves
it tombstoned with uid -1; the destuid decoded from the scenario-1 frame
is 42. -/
theorem C9_no_routing_to_closed_witness :
    ((fun q => if q = 3 then (5 : Int) else 0) 3 = 5 ∧
        (fun q => if q = 3 then (5 : Int) else 0) 3 ≠ -1) ∧
      (⟨-1, [], [], 1⟩ : Conn).faf_uid = -1 ∧
      destUidOf [0, 0, 0, 8, 18, 52, 0, 42] ≤ 65535 := by
  have h := C9_no_routing_to_closed
  refine ⟨h.1 (fun q => if q = 3 then (5 : Int) else 0) [3] 5 3
      (by decide) (by decide) (by decide), ?_, ?_⟩
  · exact h.2.1 [(0, ⟨7, [], [], 2⟩)] [0] 0 ⟨-1, [], [], 1⟩ (by decide)
  · exact h.2.2 [0, 0, 0, 8, 18, 52, 0, 42] (by decide)

/-! ## C1: a duplicate UID announcement -/

/-- C1 counterexample: connection 0 (A) holds uid 5 in peer_sockets;
connection 1 (B), uid unset, announces uid 5.  The claim says the index
afterwards maps 5 to B; in fact std::set::insert of the duplicate key is
a no-op: the index is unchanged, still maps 5 to A, and B is not a
member. -/
theorem C1_counterexample :
    (announceStep [(0, ⟨5, [], [], 1⟩), (1, ⟨-1, [], [], 1⟩)] [0] 1 5).2 = [0] ∧
      set_find (uidOfS (announceStep [(0, ⟨5, [], [], 1⟩), (1, ⟨-1, [], [], 1⟩)] [0] 1 5).1)
        (announceStep [(0, ⟨5, [], [], 1⟩), (1, ⟨-1, [], [], 1⟩)] [0] 1 5).2 5 = some 0 ∧
      uidOfS (announceStep [(0, ⟨5, [], [], 1⟩), (1, ⟨-1, [], [], 1⟩)] [0] 1 5).1 1 = 5 ∧
      1 ∉ (announceStep [(0, ⟨5, [], [], 1⟩), (1, ⟨-1, [], [], 1⟩)] [0] 1 5).2 := by
  decide

/-- C1 amended: when a connection src with unset uid announces a uid u
already held by a live connection a in peer_sockets, the insert is a
no-op: the index is unchanged and still maps u to a (the displaced party
is src, not a); src's faf_uid is set to u but src is not in the index;
every other connection record is untouched. -/
theorem C1_duplicate_uid_insert_noop (s : Store) (idx : List Nat) (src a u : Nat)
    (c : Conn) (hc : getC s src = some c) (_hcu : c.faf_uid = -1)
    (ha : set_find (uidOfS s) idx (u : Int) = some a) (has : a ≠ src)
    (hsrc : src ∉ idx) :
    (announceStep s idx src u).2 = idx ∧
      set_find (uidOfS (announceStep s idx src u).1) (announceStep s idx src u).2
        (u : Int) = some a ∧
      uidOfS (announceStep s idx src u).1 src = u ∧
      src ∉ (announceStep s idx src u).2 ∧
      (∀ j, j ≠ src → getC (announceStep s idx src u).1 j = getC s j) := by
  have hmem : a ∈ idx := List.mem_of_find?_eq_some ha
  have hpa : uidOfS s a = u := by
    have := List.find?_some ha
    simpa using this
  have hins : announceStep s idx src u
      = (setC s src { c with faf_uid := (u : Int) },
          set_insert (uidOfS (setC s src { c with faf_uid := (u : Int) })) idx src) := by
    unfold announceStep
    rw [hc]
  have huid_src : uidOfS (setC s src { c with faf_uid := (u : Int) }) src = u :=
    uidOfS_setC_self _ hc
  have huid_other : ∀ j, j ≠ src →
      uidOfS (setC s src { c with faf_uid := (u : Int) }) j = uidOfS s j := by
    intro j hj
    exact uidOfS_setC_ne s _ (fun h => hj h.symm)
  have hdup : idx.any (fun q =>
      uidOfS (setC s src { c with faf_uid := (u : Int) }) q ==
        uidOfS (setC s src { c with faf_uid := (u : Int) }) src) = true := by
    refine List.any_eq_true.mpr ⟨a, hmem, ?_⟩
    rw [huid_src, huid_other a has, hpa]
    simp
  have hinsert : set_insert (uidOfS (setC s src { c with faf_uid := (u : Int) })) idx src
      = idx := by
    unfold set_insert
    rw [if_pos hdup]
  have hfind2 : set_find (uidOfS (setC s src { c with faf_uid := (u : Int) })) idx
      (u : Int) = some a := by
    unfold set_find at ha ⊢
    rw [find?_congr_mem (fun x hx => by
      rw [huid_other x (fun h => hsrc (h ▸ hx))])]
    exact ha
  refine ⟨by rw [hins, hinsert], ?_, ?_, ?_, ?_⟩
  · rw [hins]
    simpa [hinsert] using hfind2
  · rw [hins]
    exact huid_src
  · rw [hins]
    simpa [hinsert] using hsrc
  · intro j hj
    rw [hins]
    exact getC_setC_ne s _ (fun h => hj h.symm)

/-- Witness for C1 amended at the concrete duplicate announcement of the
counterexample. -/
theorem C1_duplicate_uid_insert_noop_witness :
    (announceStep [(0, ⟨5, [], [], 1⟩), (1, ⟨-1, [], [], 1⟩)] [0] 1 5).2 = [0] ∧
      set_find (uidOfS (announceStep [(0, ⟨5, [], [], 1⟩), (1, ⟨-1, [], [], 1⟩)] [0] 1 5).1)
        (announceStep [(0, ⟨5, [], [], 1⟩), (1, ⟨-1, [], [], 1⟩)] [0] 1 5).2 5 = some 0 ∧
      uidOfS (announceStep [(0, ⟨5, [], [], 1⟩), (1, ⟨-1, [], [], 1⟩)] [0] 1 5).1 1 = 5 := by
  have h := C1_duplicate_uid_insert_noop [(0, ⟨5, [], [], 1⟩), (1, ⟨-1, [], [], 1⟩)] [0]
    1 0 5 ⟨-1, [], [], 1⟩ (by decide) rfl (by decide) (by decide) (by decide)
  exact ⟨h.1, h.2.1, h.2.2.1⟩

/-! ## C8: startup failures and exit status 1 -/

/-- C8 counterexample: with the connect refused and the unlink
succeeding, a bind failure on the local control-socket path does NOT
exit with status 1: ctrl_socket_listen logs and returns -1, but its
return value is ignored at line 419, so startup proceeds (with a broken
control listener) to serve TCP. -/
theorem C8_counterexample :
    startup true true true .refused true false true true true true true true true true true
        = .run (.listening false) ∧
      startup true true true .refused true false true true true true true true true true true
        ≠ .exit1 := by decide

/-- C8 amended: startup exits with status 1 exactly on epoll_create
failure, socket(AF_UNIX) failure, unlink failure after ECONNREFUSED, a
send failure or an unexpected control-handshake reply, getaddrinfo
failure, or TCP socket / setsockopt / bind / listen failure.  Failures
of bind or listen on the local control-socket path do NOT exit (the
result of ctrl_socket_listen is ignored), and neither does a connect
failure other than ECONNREFUSED or ENOENT (logged; startup continues
without a control socket). -/
theorem startup_exit1_split (e p ux : Bool) (conn : ConnectRes)
    (ul cb cl so rp g s v r b l : Bool) :
    startup e p ux conn ul cb cl so rp g s v r b l = .exit1 ↔
      (e = false ∨ ctrlPhase p ux conn ul cb cl so rp = none ∨
        tcpPhase g s v r b l = false) := by
  cases e with
  | false => simp [startup]
  | true =>
    simp only [startup, Bool.not_true, Bool.false_eq_true, if_false]
    cases hcp : ctrlPhase p ux conn ul cb cl so rp with
    | none => simp
    | some ctrl =>
      cases htp : tcpPhase g s v r b l <;> simp

theorem ctrlPhase_none_iff (p ux : Bool) (conn : ConnectRes) (ul cb cl so rp : Bool) :
    ctrlPhase p ux conn ul cb cl so rp = none ↔
      (p = true ∧ (ux = false ∨
        (conn = .refused ∧ ul = false) ∨
        (conn = .ok ∧ (so = false ∨ rp = false)))) := by
  cases p <;> cases ux <;> cases conn <;> cases ul <;> cases so <;> cases rp <;>
    simp [ctrlPhase]

theorem tcpPhase_false_iff (g s v r b l : Bool) :
    tcpPhase g s v r b l = false ↔
      (g = false ∨ s = false ∨ v = false ∨ r = false ∨ b = false ∨ l = false) := by
  cases g <;> cases s <;> cases v <;> cases r <;> cases b <;> cases l <;> simp [tcpPhase]

/-- C8 amended: startup exits with status 1 exactly on epoll_create
failure, socket(AF_UNIX) failure, unlink failure after ECONNREFUSED, a
send failure or an unexpected control-handshake reply, getaddrinfo
failure, or TCP socket / setsockopt / bind / listen failure.  Failures
of bind or listen on the local control-socket path do NOT exit (the
result of ctrl_socket_listen is ignored at line 419), and neither does a
connect failure other than ECONNREFUSED or ENOENT (logged; startup
continues without a control socket). -/
theorem C8_exit1_characterization (e p ux : Bool) (conn : ConnectRes)
    (ul cb cl so rp g s v r b l : Bool) :
    startup e p ux conn ul cb cl so rp g s v r b l = .exit1 ↔
      (e = false ∨
        (p = true ∧ (ux = false ∨
          (conn = .refused ∧ ul = false) ∨
          (conn = .ok ∧ (so = false ∨ rp = false)))) ∨
        g = false ∨ s = false ∨ v = false ∨ r = false ∨ b = false ∨ l = false) := by
  rw [startup_exit1_split, ctrlPhase_none_iff, tcpPhase_false_iff]

/-! ## C7: decay is never left -/

theorem applyEv_decay_acts (src : Nat) (si : Store × List Nat) (ev : Ev) :
    (applyEv true src si ev).2 = [] := by
  obtain ⟨s, idx⟩ := si
  cases ev with
  | announce u => rfl
  | msg frame => rfl

theorem applyEvs_decay_acts (src : Nat) (si : Store × List Nat) (evs : List Ev) :
    (applyEvs true src si evs).2 = [] := by
  induction evs generalizing si with
  | nil => rfl
  | cons ev rest ih =>
    simp only [applyEvs]
    rw [applyEv_decay_acts, ih]
    rfl

theorem inheritOne_flags (acc : Sys) (p : Nat × Int) :
    (inheritOne acc p).decay_mode = acc.decay_mode ∧
      (inheritOne acc p).server_open = acc.server_open ∧
      (inheritOne acc p).ctrl_mode_listen = acc.ctrl_mode_listen := by
  unfold inheritOne
  cases getC acc.conns p.1 with
  | some _ => exact ⟨rfl, rfl, rfl⟩
  | none =>
    dsimp only
    by_cases h : p.2 = -1
    · rw [if_pos h]
      exact ⟨rfl, rfl, rfl⟩
    · rw [if_neg h]
      exact ⟨rfl, rfl, rfl⟩

theorem inheritConns_flags (st : Sys) (news : List (Nat × Int)) :
    (inheritConns st news).decay_mode = st.decay_mode ∧
      (inheritConns st news).server_open = st.server_open ∧
      (inheritConns st news).ctrl_mode_listen = st.ctrl_mode_listen := by
  induction news generalizing st with
  | nil => exact ⟨rfl, rfl, rfl⟩
  | cons hd tl ih =>
    have h1 := ih (inheritOne st hd)
    have h2 := inheritOne_flags st hd
    simp only [inheritConns, List.foldl_cons] at h1 ⊢
    exact ⟨h1.1.trans h2.1, (h1.2.1.trans h2.2.1), h1.2.2.trans h2.2.2⟩

/-- During decay, one loop iteration keeps decay_mode set, keeps the TCP
listeners closed, and emits neither a peer-to-peer forward nor any TCP
listener registration. -/
theorem step_decay_invariants (cap : Nat) (st : Sys) (ev : Event)
    (hd : st.decay_mode = true) (hs : st.server_open = false) :
    (step cap st ev).1.decay_mode = true ∧
      (step cap st ev).1.server_open = false ∧
      ∀ a ∈ (step cap st ev).2,
        (∀ dst bytes, a ≠ Act.forward dst bytes) ∧ a ≠ Act.registerTcpListener := by
  cases ev with
  | sigusr1 =>
    refine ⟨hd, rfl, ?_⟩
    intro a ha
    simp only [step, List.mem_singleton] at ha
    subst ha
    exact ⟨fun d b => by simp, by simp⟩
  | ctrlAccept => exact ⟨hd, hs, by simp [step]⟩
  | ctrlEof =>
    refine ⟨hd, hs, ?_⟩
    intro a ha
    simp only [step, List.mem_singleton] at ha
    subst ha
    exact ⟨fun d b => by simp, by simp⟩
  | ctrlMsg cmd =>
    by_cases h1 : st.ctrl_mode_listen
    · by_cases h2 : cmd.take 8 = unlistenBytes
      · refine ⟨by simp [step, h1, h2], by simp [step, h1, h2], ?_⟩
        intro a ha
        simp only [step, h1, h2, if_true, if_pos] at ha
        simp only [List.mem_cons, List.mem_append, List.mem_map] at ha
        rcases ha with rfl | rfl | ⟨x, _, rfl⟩ | ⟨x, _, rfl⟩ <;>
          exact ⟨fun d b => by simp, by simp⟩
      · exact ⟨by simp [step, h1, h2, hd], by simp [step, h1, h2, hs], by simp [step, h1, h2]⟩
    · exact ⟨by simp [step, h1, hd], by simp [step, h1, hs], by simp [step, h1]⟩
  | ctrlDesc news =>
    by_cases h1 : st.ctrl_mode_listen
    · exact ⟨by simp [step, h1, hd], by simp [step, h1, hs], by simp [step, h1]⟩
    · refine ⟨?_, ?_, by simp [step, h1]⟩
      · simp [step, h1, (inheritConns_flags st news).1, hd]
      · simp [step, h1, (inheritConns_flags st news).2.1, hs]
  | ctrlExit =>
    by_cases h1 : st.ctrl_mode_listen
    · exact ⟨by simp [step, h1, hd], by simp [step, h1, hs], by simp [step, h1]⟩
    · refine ⟨by simp [step, h1, hd], by simp [step, h1, hs], ?_⟩
      intro a ha
      simp only [step, h1, Bool.false_eq_true, if_false, List.mem_singleton] at ha
      subst ha
      exact ⟨fun d b => by simp, by simp⟩
  | tcpAccept id =>
    by_cases h : (st.server_open && (getC st.conns id).isNone) = true
    · exact ⟨by simp [step, h, hd], by simp [step, h, hs], by simp [step, h]⟩
    · exact ⟨by simp [step, h, hd], by simp [step, h, hs], by simp [step, h]⟩
  | peerErr => exact ⟨hd, hs, by simp [step]⟩
  | peerEof id =>
    cases hgc : getC st.conns id with
    | none => exact ⟨by simp [step, hgc, hd], by simp [step, hgc, hs], by simp [step, hgc]⟩
    | some c =>
      refine ⟨by simp [step, hgc, hd], by simp [step, hgc, hs], ?_⟩
      intro a ha
      simp only [step, hgc, List.mem_singleton] at ha
      subst ha
      exact ⟨fun d b => by simp, by simp⟩
  | peerData id data =>
    cases hgc : getC st.conns id with
    | none => exact ⟨by simp [step, hgc, hd], by simp [step, hgc, hs], by simp [step, hgc]⟩
    | some c =>
      refine ⟨?_, ?_, ?_⟩
      · simp only [step, hgc]
        split
        · exact hd
        · split
          · exact hd
          · exact hd
          · split
            · exact hd
            · exact hd
      · simp only [step, hgc]
        split
        · exact hs
        · split
          · exact hs
          · exact hs
          · split
            · exact hs
            · exact hs
      · simp only [step, hgc]
        split
        · intro a ha
          simp only [List.mem_cons, List.not_mem_nil, or_false] at ha
          rcases ha with rfl | rfl <;> exact ⟨fun d b => by simp, by simp⟩
        · split
          · intro a ha
            simp only [List.mem_singleton] at ha
            subst ha
            exact ⟨fun d b => by simp, by simp⟩
          · rw [hd, applyEvs_decay_acts]
            intro a ha
            simp only [List.nil_append, List.mem_singleton] at ha
            subst ha
            exact ⟨fun d b => by simp, by simp⟩
          · split
            · rw [hd, applyEvs_decay_acts]
              intro a ha
              simp only [List.nil_append, List.mem_cons, List.not_mem_nil, or_false] at ha
              rcases ha with rfl | rfl <;> exact ⟨fun d b => by simp, by simp⟩
            · rw [hd, applyEvs_decay_acts]
              intro a ha
              simp at ha

/-- C7: once decay_mode is set (after serving an unlisten command, which
closed the TCP listeners), it holds in every later loop iteration: over
any sequence of readiness events no peer-to-peer forward is ever emitted
(the router is guarded by decay_mode at line 799), the TCP listeners
never reopen (nothing in the loop sets them up again), and no TCP
listener registration is ever issued — the only in-loop poll_in
registrations target the local control listener. -/
theorem C7_decay_monotonic (cap : Nat) (st : Sys) (evs : List Event)
    (hd : st.decay_mode = true) (hs : st.server_open = false) :
    (run cap st evs).1.decay_mode = true ∧
      (run cap st evs).1.server_open = false ∧
      ∀ a ∈ (run cap st evs).2,
        (∀ dst bytes, a ≠ Act.forward dst bytes) ∧ a ≠ Act.registerTcpListener := by
  induction evs generalizing st with
  | nil => exact ⟨hd, hs, by simp [run]⟩
  | cons ev rest ih =>
    obtain ⟨h1, h2, h3⟩ := step_decay_invariants cap st ev hd hs
    obtain ⟨h4, h5, h6⟩ := ih (step cap st ev).1 h1 h2
    refine ⟨by simpa [run] using h4, by simpa [run] using h5, ?_⟩
    intro a ha
    simp only [run, List.mem_append] at ha
    rcases ha with ha | ha
    · exact h3 a ha
    · exact h6 a ha

/-- Witness for C7: a concrete decaying instance (one idle peer, an
unidentified fresh peer and a control EOF among the events) emits no
forward and stays decayed. -/
theorem C7_decay_monotonic_witness :
    (run 3928 ⟨[(4, ⟨9, [], [], 1⟩)], [4], false, true, true⟩
        [.ctrlEof, .peerData 4 [0, 0], .peerErr]).1.decay_mode = true ∧
      (run 3928 ⟨[(4, ⟨9, [], [], 1⟩)], [4], false, true, true⟩
        [.ctrlEof, .peerData 4 [0, 0], .peerErr]).1.server_open = false := by
  have h := C7_decay_monotonic 3928 ⟨[(4, ⟨9, [], [], 1⟩)], [4], false, true, true⟩
    [.ctrlEof, .peerData 4 [0, 0], .peerErr] rfl rfl
  exact ⟨h.1, h.2.1⟩

/-! ## C10: UID-announce processing remains active in decay mode -/

/-- C10: while the instance is decaying, a connection with unset uid
whose buffered bytes plus the newly read bytes form a complete announce
frame (with a short partial tail surviving, so the connection is not yet
shipped) still has its uid set from the frame and is still inserted into
peer_sockets — the announce branch at lines 785-792 is not guarded by
decay_mode — while no addressed message is forwarded: the step emits no
actions at all here. -/
theorem C10_announce_in_decay (cap : Nat) (st : Sys) (id : Nat) (c : Conn)
    (s : Nat) (body tail0 data : List Nat)
    (hdecay : st.decay_mode = true)
    (hc : getC st.conns id = some c) (huid : c.faf_uid = -1) (hbuf : c.buf ≠ [])
    (hsplit : c.buf ++ data = be32 s ++ (body ++ tail0))
    (hblen : body.length = s) (hs2 : 2 ≤ s) (hcap : s + 4 ≤ cap) (hcap31 : cap < 2 ^ 31)
    (htail : tail0.length < 4) (htail0 : tail0 ≠ [])
    (hidx : id ∉ st.peer_sockets)
    (hnodup : ∀ q ∈ st.peer_sockets,
      uidOfS st.conns q ≠ (beNat (body.take 2) : Int)) :
    (∃ c', getC (step cap st (.peerData id data)).1.conns id = some c' ∧
        c'.faf_uid = (beNat (body.take 2) : Int) ∧ c'.buf = tail0) ∧
      id ∈ (step cap st (.peerData id data)).1.peer_sockets ∧
      (step cap st (.peerData id data)).2 = [] := by
  have hparse : parseLoop cap ((c.buf ++ data).length + 1) c.faf_uid (c.buf ++ data)
      = .ok [Ev.announce (beNat (body.take 2))] ((beNat (body.take 2) : Nat) : Int) tail0 := by
    rw [huid, hsplit]
    exact parseLoop_single_announce cap s body tail0 _ hblen hs2 hcap hcap31 htail (by omega)
  have hbufE : c.buf.isEmpty = false := by
    cases hcb : c.buf with
    | nil => exact absurd hcb hbuf
    | cons x xs => rfl
  have htailE : tail0.isEmpty = false := by
    cases hcb : tail0 with
    | nil => exact absurd hcb htail0
    | cons x xs => rfl
  have hany : (st.peer_sockets.any (fun q =>
      uidOfS (setC st.conns id { c with faf_uid := (beNat (body.take 2) : Int) }) q ==
        uidOfS (setC st.conns id { c with faf_uid := (beNat (body.take 2) : Int) }) id))
      = false := by
    rw [List.any_eq_false]
    intro q hq
    have hqid : q ≠ id := fun h => hidx (h ▸ hq)
    rw [uidOfS_setC_ne _ _ (fun h => hqid h.symm), uidOfS_setC_self _ hc]
    simp only [beq_iff_eq]
    exact hnodup q hq
  have hann : announceStep st.conns st.peer_sockets id (beNat (body.take 2))
      = (setC st.conns id { c with faf_uid := (beNat (body.take 2) : Int) },
          id :: st.peer_sockets) := by
    unfold announceStep
    rw [hc]
    dsimp only
    unfold set_insert
    rw [hany]
    simp
  have happ : applyEvs true id (st.conns, st.peer_sockets)
      [Ev.announce (beNat (body.take 2))]
      = ((setC st.conns id { c with faf_uid := (beNat (body.take 2) : Int) },
          id :: st.peer_sockets), []) := by
    simp only [applyEvs, applyEv]
    rw [hann]
    rfl
  have hg2 : getC (setC st.conns id { c with faf_uid := (beNat (body.take 2) : Int) }) id
      = some { c with faf_uid := (beNat (body.take 2) : Int) } := by
    rw [getC_setC_eq, hc]
    rfl
  have hstep : step cap st (.peerData id data)
      = ({ st with
            conns := setC (setC st.conns id { c with faf_uid := (beNat (body.take 2) : Int) })
              id { c with faf_uid := (beNat (body.take 2) : Int), buf := tail0 },
            peer_sockets := id :: st.peer_sockets }, []) := by
    simp only [step]
    rw [hc]
    dsimp only
    rw [hdecay, hbufE]
    simp only [Bool.true_and, Bool.false_eq_true, if_false]
    rw [hparse]
    dsimp only
    rw [happ]
    dsimp only
    rw [hg2]
    dsimp only
    rw [htailE]
    simp only [Bool.true_and, Bool.false_eq_true, if_false]
  rw [hstep]
  refine ⟨⟨{ c with faf_uid := (beNat (body.take 2) : Int), buf := tail0 }, ?_, rfl, rfl⟩,
    ?_, rfl⟩
  · dsimp only
    rw [getC_setC_eq, hg2]
    rfl
  · exact List.mem_cons_self _ _

/-- Witness for C10: a decaying instance with connection 1 (uid unset,
2 bytes buffered) reading the rest of an announce of uid 42 plus one
stray byte. -/
theorem C10_announce_in_decay_witness :
    (∃ c', getC (step 3928 ⟨[(1, ⟨-1, [0, 0], [], 1⟩)], [], false, true, true⟩
        (.peerData 1 [0, 2, 0, 42, 9])).1.conns 1 = some c' ∧
        c'.faf_uid = (42 : Int) ∧ c'.buf = [9]) ∧
      1 ∈ (step 3928 ⟨[(1, ⟨-1, [0, 0], [], 1⟩)], [], false, true, true⟩
        (.peerData 1 [0, 2, 0, 42, 9])).1.peer_sockets ∧
      (step 3928 ⟨[(1, ⟨-1, [0, 0], [], 1⟩)], [], false, true, true⟩
        (.peerData 1 [0, 2, 0, 42, 9])).2 = [] := by
  have h := C10_announce_in_decay 3928 ⟨[(1, ⟨-1, [0, 0], [], 1⟩)], [], false, true, true⟩
    1 ⟨-1, [0, 0], [], 1⟩ 2 [0, 42] [9] [0, 2, 0, 42, 9] rfl (by decide) rfl
    (by decide) (by decide) (by decide) (by decide) (by decide) (by decide) (by decide)
    (by decide) (by simp)
  simpa using h

end ProxyServer
